import Mathlib

/-!
# conf: an INI-style configuration reader

A shallow embedding of `get.go` and `read.go`, and theorems about it.

Modelling conventions
* A Go `string` is a `List Char` (`Str`), the characters of a valid UTF-8 text.
  `read.go` cuts a string at the place of an ASCII character that it has searched or
  tested for, and compares its first three bytes with `rem`, which only three ASCII
  characters can equal: counting characters gives the same cuts and the same tests.
  `GetString` takes the bounds of its slices from the bytes of a string, so its slices
  are cut at byte offsets (`sliceBytes`).
* A Go `map[string]V` is an association list read through `mapGet` (first
  binding of a key) and written through `mapSet` (replace in place, or append).
  The iteration order of a Go map is unspecified; the embedding enumerates keys
  in list order and no theorem depends on that order.
* A call returning `(value, *GetError)` with one of the two meaningful is an
  `Except GetError value`; a call that may panic returns a `Run`.
* `strings.ToLower` maps every character through `unicode.ToLower`; `strings.TrimSpace`
  removes the characters of `unicode.IsSpace`.
-/

namespace Conf

/-- A Go string. -/
abbrev Str := List Char

/-! ## Strings -/

/-- The characters above ASCII that `unicode.ToLower` changes, after the simple lower-case
mapping of the Unicode character database, version 15.0 (`U+0130` maps to `i`). An entry
`(lo, hi, stride, to)` stands for the characters `lo`, `lo + stride`, ... up to `hi`: the
first one maps to `to`, and every one of them moves by that same distance. -/
def lowerRanges : List (Nat × Nat × Nat × Nat) :=
  [(0xC0, 0xD6, 1, 0xE0), (0xD8, 0xDE, 1, 0xF8), (0x100, 0x12E, 2, 0x101), (0x130, 0x130, 1, 0x69),
   (0x132, 0x136, 2, 0x133), (0x139, 0x147, 2, 0x13A), (0x14A, 0x176, 2, 0x14B),
   (0x178, 0x178, 1, 0xFF), (0x179, 0x17D, 2, 0x17A), (0x181, 0x181, 1, 0x253),
   (0x182, 0x184, 2, 0x183), (0x186, 0x186, 1, 0x254), (0x187, 0x187, 1, 0x188),
   (0x189, 0x18A, 1, 0x256), (0x18B, 0x18B, 1, 0x18C), (0x18E, 0x18E, 1, 0x1DD),
   (0x18F, 0x18F, 1, 0x259), (0x190, 0x190, 1, 0x25B), (0x191, 0x191, 1, 0x192),
   (0x193, 0x193, 1, 0x260), (0x194, 0x194, 1, 0x263), (0x196, 0x196, 1, 0x269),
   (0x197, 0x197, 1, 0x268), (0x198, 0x198, 1, 0x199), (0x19C, 0x19C, 1, 0x26F),
   (0x19D, 0x19D, 1, 0x272), (0x19F, 0x19F, 1, 0x275), (0x1A0, 0x1A4, 2, 0x1A1),
   (0x1A6, 0x1A6, 1, 0x280), (0x1A7, 0x1A7, 1, 0x1A8), (0x1A9, 0x1A9, 1, 0x283),
   (0x1AC, 0x1AC, 1, 0x1AD), (0x1AE, 0x1AE, 1, 0x288), (0x1AF, 0x1AF, 1, 0x1B0),
   (0x1B1, 0x1B2, 1, 0x28A), (0x1B3, 0x1B5, 2, 0x1B4), (0x1B7, 0x1B7, 1, 0x292),
   (0x1B8, 0x1B8, 1, 0x1B9), (0x1BC, 0x1BC, 1, 0x1BD), (0x1C4, 0x1C4, 1, 0x1C6),
   (0x1C5, 0x1C5, 1, 0x1C6), (0x1C7, 0x1C7, 1, 0x1C9), (0x1C8, 0x1C8, 1, 0x1C9),
   (0x1CA, 0x1CA, 1, 0x1CC), (0x1CB, 0x1DB, 2, 0x1CC), (0x1DE, 0x1EE, 2, 0x1DF),
   (0x1F1, 0x1F1, 1, 0x1F3), (0x1F2, 0x1F4, 2, 0x1F3), (0x1F6, 0x1F6, 1, 0x195),
   (0x1F7, 0x1F7, 1, 0x1BF), (0x1F8, 0x21E, 2, 0x1F9), (0x220, 0x220, 1, 0x19E),
   (0x222, 0x232, 2, 0x223), (0x23A, 0x23A, 1, 0x2C65), (0x23B, 0x23B, 1, 0x23C),
   (0x23D, 0x23D, 1, 0x19A), (0x23E, 0x23E, 1, 0x2C66), (0x241, 0x241, 1, 0x242),
   (0x243, 0x243, 1, 0x180), (0x244, 0x244, 1, 0x289), (0x245, 0x245, 1, 0x28C),
   (0x246, 0x24E, 2, 0x247), (0x370, 0x372, 2, 0x371), (0x376, 0x376, 1, 0x377),
   (0x37F, 0x37F, 1, 0x3F3), (0x386, 0x386, 1, 0x3AC), (0x388, 0x38A, 1, 0x3AD),
   (0x38C, 0x38C, 1, 0x3CC), (0x38E, 0x38F, 1, 0x3CD), (0x391, 0x3A1, 1, 0x3B1),
   (0x3A3, 0x3AB, 1, 0x3C3), (0x3CF, 0x3CF, 1, 0x3D7), (0x3D8, 0x3EE, 2, 0x3D9),
   (0x3F4, 0x3F4, 1, 0x3B8), (0x3F7, 0x3F7, 1, 0x3F8), (0x3F9, 0x3F9, 1, 0x3F2),
   (0x3FA, 0x3FA, 1, 0x3FB), (0x3FD, 0x3FF, 1, 0x37B), (0x400, 0x40F, 1, 0x450),
   (0x410, 0x42F, 1, 0x430), (0x460, 0x480, 2, 0x461), (0x48A, 0x4BE, 2, 0x48B),
   (0x4C0, 0x4C0, 1, 0x4CF), (0x4C1, 0x4CD, 2, 0x4C2), (0x4D0, 0x52E, 2, 0x4D1),
   (0x531, 0x556, 1, 0x561), (0x10A0, 0x10C5, 1, 0x2D00), (0x10C7, 0x10C7, 1, 0x2D27),
   (0x10CD, 0x10CD, 1, 0x2D2D), (0x13A0, 0x13EF, 1, 0xAB70), (0x13F0, 0x13F5, 1, 0x13F8),
   (0x1C90, 0x1CBA, 1, 0x10D0), (0x1CBD, 0x1CBF, 1, 0x10FD), (0x1E00, 0x1E94, 2, 0x1E01),
   (0x1E9E, 0x1E9E, 1, 0xDF), (0x1EA0, 0x1EFE, 2, 0x1EA1), (0x1F08, 0x1F0F, 1, 0x1F00),
   (0x1F18, 0x1F1D, 1, 0x1F10), (0x1F28, 0x1F2F, 1, 0x1F20), (0x1F38, 0x1F3F, 1, 0x1F30),
   (0x1F48, 0x1F4D, 1, 0x1F40), (0x1F59, 0x1F5F, 2, 0x1F51), (0x1F68, 0x1F6F, 1, 0x1F60),
   (0x1F88, 0x1F8F, 1, 0x1F80), (0x1F98, 0x1F9F, 1, 0x1F90), (0x1FA8, 0x1FAF, 1, 0x1FA0),
   (0x1FB8, 0x1FB9, 1, 0x1FB0), (0x1FBA, 0x1FBB, 1, 0x1F70), (0x1FBC, 0x1FBC, 1, 0x1FB3),
   (0x1FC8, 0x1FCB, 1, 0x1F72), (0x1FCC, 0x1FCC, 1, 0x1FC3), (0x1FD8, 0x1FD9, 1, 0x1FD0),
   (0x1FDA, 0x1FDB, 1, 0x1F76), (0x1FE8, 0x1FE9, 1, 0x1FE0), (0x1FEA, 0x1FEB, 1, 0x1F7A),
   (0x1FEC, 0x1FEC, 1, 0x1FE5), (0x1FF8, 0x1FF9, 1, 0x1F78), (0x1FFA, 0x1FFB, 1, 0x1F7C),
   (0x1FFC, 0x1FFC, 1, 0x1FF3), (0x2126, 0x2126, 1, 0x3C9), (0x212A, 0x212A, 1, 0x6B),
   (0x212B, 0x212B, 1, 0xE5), (0x2132, 0x2132, 1, 0x214E), (0x2160, 0x216F, 1, 0x2170),
   (0x2183, 0x2183, 1, 0x2184), (0x24B6, 0x24CF, 1, 0x24D0), (0x2C00, 0x2C2F, 1, 0x2C30),
   (0x2C60, 0x2C60, 1, 0x2C61), (0x2C62, 0x2C62, 1, 0x26B), (0x2C63, 0x2C63, 1, 0x1D7D),
   (0x2C64, 0x2C64, 1, 0x27D), (0x2C67, 0x2C6B, 2, 0x2C68), (0x2C6D, 0x2C6D, 1, 0x251),
   (0x2C6E, 0x2C6E, 1, 0x271), (0x2C6F, 0x2C6F, 1, 0x250), (0x2C70, 0x2C70, 1, 0x252),
   (0x2C72, 0x2C72, 1, 0x2C73), (0x2C75, 0x2C75, 1, 0x2C76), (0x2C7E, 0x2C7F, 1, 0x23F),
   (0x2C80, 0x2CE2, 2, 0x2C81), (0x2CEB, 0x2CED, 2, 0x2CEC), (0x2CF2, 0x2CF2, 1, 0x2CF3),
   (0xA640, 0xA66C, 2, 0xA641), (0xA680, 0xA69A, 2, 0xA681), (0xA722, 0xA72E, 2, 0xA723),
   (0xA732, 0xA76E, 2, 0xA733), (0xA779, 0xA77B, 2, 0xA77A), (0xA77D, 0xA77D, 1, 0x1D79),
   (0xA77E, 0xA786, 2, 0xA77F), (0xA78B, 0xA78B, 1, 0xA78C), (0xA78D, 0xA78D, 1, 0x265),
   (0xA790, 0xA792, 2, 0xA791), (0xA796, 0xA7A8, 2, 0xA797), (0xA7AA, 0xA7AA, 1, 0x266),
   (0xA7AB, 0xA7AB, 1, 0x25C), (0xA7AC, 0xA7AC, 1, 0x261), (0xA7AD, 0xA7AD, 1, 0x26C),
   (0xA7AE, 0xA7AE, 1, 0x26A), (0xA7B0, 0xA7B0, 1, 0x29E), (0xA7B1, 0xA7B1, 1, 0x287),
   (0xA7B2, 0xA7B2, 1, 0x29D), (0xA7B3, 0xA7B3, 1, 0xAB53), (0xA7B4, 0xA7C2, 2, 0xA7B5),
   (0xA7C4, 0xA7C4, 1, 0xA794), (0xA7C5, 0xA7C5, 1, 0x282), (0xA7C6, 0xA7C6, 1, 0x1D8E),
   (0xA7C7, 0xA7C9, 2, 0xA7C8), (0xA7D0, 0xA7D0, 1, 0xA7D1), (0xA7D6, 0xA7D8, 2, 0xA7D7),
   (0xA7F5, 0xA7F5, 1, 0xA7F6), (0xFF21, 0xFF3A, 1, 0xFF41), (0x10400, 0x10427, 1, 0x10428),
   (0x104B0, 0x104D3, 1, 0x104D8), (0x10570, 0x1057A, 1, 0x10597), (0x1057C, 0x1058A, 1, 0x105A3),
   (0x1058C, 0x10592, 1, 0x105B3), (0x10594, 0x10595, 1, 0x105BB), (0x10C80, 0x10CB2, 1, 0x10CC0),
   (0x118A0, 0x118BF, 1, 0x118C0), (0x16E40, 0x16E5F, 1, 0x16E60), (0x1E900, 0x1E921, 1, 0x1E922)]

/-- The function `unicode.ToLower` on code points: the ASCII letters first, as in the
source of the library, then the table. -/
def lowerCode (n : Nat) : Nat :=
  if n < 128 then (if 65 ≤ n ∧ n ≤ 90 then n + 32 else n)
  else
    match lowerRanges.find? (fun r => decide (r.1 ≤ n ∧ n ≤ r.2.1 ∧ (n - r.1) % r.2.2.1 = 0)) with
    | some r => r.2.2.2 + (n - r.1)
    | none => n

/-- The function `unicode.ToLower`. -/
def unicodeToLower (c : Char) : Char := Char.ofNat (lowerCode c.toNat)

/-- The function `strings.ToLower`: every character through `unicode.ToLower`. -/
def ToLower (s : Str) : Str := s.map unicodeToLower

/-- The predicate `unicode.IsSpace`. -/
def isSpace (c : Char) : Bool :=
  c == '\t' || c == '\n' || c.toNat == 0x0B || c.toNat == 0x0C || c == '\r' || c == ' ' ||
  c.toNat == 0x85 || c.toNat == 0xA0 || c.toNat == 0x1680 ||
  (0x2000 ≤ c.toNat && c.toNat ≤ 0x200A) ||
  c.toNat == 0x2028 || c.toNat == 0x2029 || c.toNat == 0x202F || c.toNat == 0x205F ||
  c.toNat == 0x3000

/-- The function `strings.TrimSpace`. -/
def TrimSpace (s : Str) : Str :=
  ((s.dropWhile isSpace).reverse.dropWhile isSpace).reverse

/-- Whether `p` is a prefix of `s`. -/
def hasPrefix : Str → Str → Bool
  | [], _ => true
  | _ :: _, [] => false
  | a :: p, b :: s => a == b && hasPrefix p s

/-- The function `strings.Index`: the first position at which `sub` occurs in `s`. -/
def Index (s sub : Str) : Option Nat :=
  match s with
  | [] => if hasPrefix sub [] then some 0 else none
  | c :: cs =>
    if hasPrefix sub (c :: cs) then some 0 else (Index cs sub).map (· + 1)

/-- The function `strings.IndexAny`: the first position in `s` of a character of `chars`. -/
def IndexAny (s chars : Str) : Option Nat :=
  match s with
  | [] => none
  | c :: cs => if chars.contains c then some 0 else (IndexAny cs chars).map (· + 1)

/-- The slice expression `s[i:j]`. -/
def slice (s : Str) (i j : Nat) : Str := (s.drop i).take (j - i)

/-! ## Errors -/

deriving instance DecidableEq for Except

/-- The reason constants of `GetError` and `ReadError`. -/
inductive Reason where
  | SectionNotFound
  | OptionNotFound
  | MaxDepthReached
  | BlankSection
  | CouldNotParse
  | TypeError
  deriving DecidableEq, Repr

/-- The record `GetError{Reason, ValueType, Value, Section, Option}`. -/
structure GetError where
  Reason : Reason
  ValueType : Str
  Value : Str
  Section : Str
  Option : Str
  deriving DecidableEq, Repr

/-- The record `ReadError{Reason, Line}`. -/
structure ReadError where
  Reason : Reason
  Line : Str
  deriving DecidableEq, Repr

/-! ## The store -/

/-- Lookup in a Go map: the value bound to `k`, if any. -/
def mapGet {α : Type} : List (Str × α) → Str → Option α
  | [], _ => none
  | (k', v) :: m, k => if k' = k then some v else mapGet m k

/-- Assignment `m[k] = v` in a Go map. -/
def mapSet {α : Type} : List (Str × α) → Str → α → List (Str × α)
  | [], k, v => [(k, v)]
  | (k', v') :: m, k, v => if k' = k then (k', v) :: m else (k', v') :: mapSet m k v

/-- The keys of a Go map. -/
def mapKeys {α : Type} (m : List (Str × α)) : List Str := m.map Prod.fst

/-- The type `ConfigFile`: `data` maps sections to options to values. -/
structure ConfigFile where
  data : List (Str × List (Str × Str))
  deriving DecidableEq, Repr

/-- The variable `DefaultSection`. -/
def DefaultSection : Str := "default".toList

/-- The double index `c.data[section][option]`; a missing section reads as an empty map. -/
def lookup2 (c : ConfigFile) (sec opt : Str) : Option Str :=
  match mapGet c.data sec with
  | none => none
  | some m => mapGet m opt

/-- Modelled from the spec: `AddSection`, whose body is not in `get.go` or `read.go`.
"Idempotent; ensures the mapping slot exists, creating an empty option mapping if absent.
If `name` is empty, targets `default`"; names are lower-cased at every insertion. -/
def AddSection (c : ConfigFile) (sect : Str) : ConfigFile :=
  let sec := ToLower (if sect = [] then "default".toList else sect)
  match mapGet c.data sec with
  | some _ => c
  | none => ⟨mapSet c.data sec []⟩

/-- Modelled from the spec: `AddOption`, whose body is not in `get.go` or `read.go`.
"Idempotent upsert; creates the section (via addSection) if missing, then stores the
lower-cased-key value, overwriting any prior value for that key." -/
def AddOption (c : ConfigFile) (sect option value : Str) : ConfigFile :=
  let c1 := AddSection c sect
  let sec := ToLower (if sect = [] then "default".toList else sect)
  let opt := ToLower option
  match mapGet c1.data sec with
  | some m => ⟨mapSet c1.data sec (mapSet m opt value)⟩
  | none => c1

/-- Modelled from the spec: `NewConfigFile`, whose body is not in `get.go` or `read.go`.
"Created empty by the constructor"; "a section named default always exists once any
configuration object is constructed". -/
def NewConfigFile : ConfigFile := AddSection ⟨[]⟩ DefaultSection

/-! ## get.go -/

/-- The method `GetSections`. -/
def GetSections (c : ConfigFile) : List Str := mapKeys c.data

/-- The method `HasSection`. -/
def HasSection (c : ConfigFile) (sect : Str) : Bool :=
  let sect := if sect = [] then "default".toList else sect
  (mapGet c.data (ToLower sect)).isSome

/-- The method `GetOptions`: the keys of `c.data[section]` only (the loop over the default
section is commented out in the source). -/
def GetOptions (c : ConfigFile) (sect : Str) : Except GetError (List Str) :=
  let sect := if sect = [] then "default".toList else sect
  let sect := ToLower sect
  match mapGet c.data sect with
  | none => .error ⟨.SectionNotFound, [], [], sect, []⟩
  | some m => .ok (mapKeys m)

/-- The method `HasOption`. -/
def HasOption (c : ConfigFile) (sect option : Str) : Bool :=
  let sect := if sect = [] then "default".toList else sect
  let sect := ToLower sect
  let option := ToLower option
  match mapGet c.data sect with
  | none => false
  | some _ =>
    let okd := (lookup2 c DefaultSection option).isSome
    let oknd := (lookup2 c sect option).isSome
    okd || oknd

/-- The method `GetRawString`. -/
def GetRawString (c : ConfigFile) (sect option : Str) : Except GetError Str :=
  let sect := if sect = [] then "default".toList else sect
  let sect := ToLower sect
  let option := ToLower option
  match mapGet c.data sect with
  | some m =>
    match mapGet m option with
    | some value => .ok value
    | none => .error ⟨.OptionNotFound, [], [], sect, option⟩
  | none => .error ⟨.SectionNotFound, [], [], sect, option⟩

/-- Modelled from the spec: the character class of the identifier in the placeholder
pattern `%(identifier)s` held by `varRegExp`, which is declared outside `get.go` and
`read.go`: ASCII letters, digits, `_`, `.` and `-`. -/
def isIdent (c : Char) : Bool := c.isAlphanum || c == '_' || c == '.' || c == '-'

/-- The length of the identifier when the text is a run of identifier characters
followed by `)s`. -/
def identRun : Str → Option Nat
  | [] => none
  | c :: cs =>
    if c = ')' then (if cs.head? = some 's' then some 0 else none)
    else if isIdent c then (identRun cs).map (· + 1)
    else none

/-- The identifier of a placeholder has one character at least. -/
def nameLength : Option Nat → Option Nat
  | some (n + 1) => some (n + 1)
  | _ => none

/-- The length of the identifier when a placeholder `%(identifier)s` starts the text. -/
def matchHere : Str → Option Nat
  | '%' :: '(' :: rest => nameLength (identRun rest)
  | _ => none

/-- Modelled from the spec: `varRegExp.FindString`. The variable `varRegExp` is declared
outside `get.go` and `read.go`; it is the `*regexp.Regexp` of "the placeholder pattern
`%(identifier)s`", and the method `FindString` of the library returns the text of the
leftmost match, the empty string when there is none. -/
def FindString : Str → Str
  | [] => []
  | c :: cs =>
    match matchHere (c :: cs) with
    | some n => (c :: cs).take (n + 4)
    | none => FindString cs

/-- The number of bytes of a character in UTF-8. -/
def utf8Len (c : Char) : Nat :=
  if c.toNat < 0x80 then 1
  else if c.toNat < 0x800 then 2
  else if c.toNat < 0x10000 then 3
  else 4

/-- The bytes of a character in UTF-8. -/
def utf8Bytes (c : Char) : List Nat :=
  let n := c.toNat
  if n < 0x80 then [n]
  else if n < 0x800 then [0xC0 + n / 64, 0x80 + n % 64]
  else if n < 0x10000 then [0xE0 + n / 4096, 0x80 + n / 64 % 64, 0x80 + n % 64]
  else [0xF0 + n / 262144, 0x80 + n / 4096 % 64, 0x80 + n / 64 % 64, 0x80 + n % 64]

/-- The builtin `len` on a string: its number of bytes. -/
def len : Str → Nat
  | [] => 0
  | c :: cs => utf8Len c + len cs

/-- The index expression `s[i]` on a string: byte `i`, absent when `i` is out of range. -/
def byteAt (s : Str) (i : Nat) : Option Nat := (s.flatMap utf8Bytes).get? i

/-- The text after the first `n` bytes; absent when byte `n` lies inside a character or
past the end. -/
def dropBytes : Str → Nat → Option Str
  | s, 0 => some s
  | [], _ + 1 => none
  | c :: cs, n + 1 => if utf8Len c ≤ n + 1 then dropBytes cs (n + 1 - utf8Len c) else none

/-- The text of the first `n` bytes; absent when byte `n` lies inside a character or past
the end. -/
def takeBytes : Str → Nat → Option Str
  | _, 0 => some []
  | [], _ + 1 => none
  | c :: cs, n + 1 =>
    if utf8Len c ≤ n + 1 then (takeBytes cs (n + 1 - utf8Len c)).map (c :: ·) else none

/-- The run-time panics of the methods of `get.go`. -/
inductive Panic where
  | indexRange
  | sliceBounds
  | nilDereference
  deriving DecidableEq, Repr

/-- What a call does: it returns, or it panics, or it cuts a string inside the bytes of a
character. The strings that follow such a cut are not texts, and what the call does from
there on is left out of the embedding. -/
inductive Run (α : Type) where
  | returns (a : α)
  | panics (p : Panic)
  | cutsCharacter
  deriving DecidableEq, Repr

/-- The rest of a call after a step that may not return. -/
def Run.bind {α β : Type} (r : Run α) (f : α → Run β) : Run β :=
  match r with
  | .returns a => f a
  | .panics p => .panics p
  | .cutsCharacter => .cutsCharacter

/-- The slice expression `s[lo:hi]` on a string, with byte offsets: it panics unless
`lo ≤ hi ≤ len(s)`. -/
def sliceBytes (s : Str) (lo hi : Nat) : Run Str :=
  if lo > hi ∨ hi > len s then .panics .sliceBounds
  else
    match dropBytes s lo with
    | none => .cutsCharacter
    | some t =>
      match takeBytes t (hi - lo) with
      | none => .cutsCharacter
      | some u => .returns u

/-- The index expression `vr[i]` as a step of a call. -/
def indexByte (vr : Str) (i : Nat) : Run Nat :=
  match byteAt vr i with
  | some b => .returns b
  | none => .panics .indexRange

/-- The loop of `GetString`, with `n` iterations left (`n = DepthValues - i`). Leaving the
loop through its condition means `i == DepthValues`; leaving it through `break` means
`i < DepthValues`. The bounds `vr[2]` and `vr[3]` are bytes of the matched text, and
`vr[2]-2` and `vr[3]+2` are computed on bytes. -/
def GetStringLoop (c : ConfigFile) (sect option : Str) : Nat → Str → Run (Except GetError Str)
  | 0, _ => .returns (.error ⟨.MaxDepthReached, [], [], sect, option⟩)
  | n + 1, value =>
    let vr := FindString value
    if len vr = 0 then .returns (.ok value)
    else
      (indexByte vr 2).bind fun lo =>
      (indexByte vr 3).bind fun hi =>
      (sliceBytes value lo hi).bind fun noption =>
      let noption := ToLower noption
      let nvalue := (lookup2 c DefaultSection noption).getD []
      let nvalue := match lookup2 c sect noption with
        | some v => v
        | none => nvalue
      if nvalue = [] then .returns (.error ⟨.OptionNotFound, [], [], sect, option⟩)
      else
        (sliceBytes value 0 ((lo + 256 - 2) % 256)).bind fun head =>
        (sliceBytes value ((hi + 2) % 256) (len value)).bind fun tail =>
        GetStringLoop c sect option n (head ++ nvalue ++ tail)

/-- The method `GetString`; `DepthValues` is the package variable bounding the unfolding. -/
def GetString (DepthValues : Nat) (c : ConfigFile) (sect option : Str) :
    Run (Except GetError Str) :=
  match GetRawString c sect option with
  | .error err => .returns (.error err)
  | .ok value => GetStringLoop c (ToLower sect) option DepthValues value

/-- The value of a run of decimal digits read after the value `n`; `none` when a
character is not a digit. -/
def parseDigits : Str → Nat → Option Nat
  | [], n => some n
  | c :: cs, n =>
    if 48 ≤ c.toNat ∧ c.toNat ≤ 57 then parseDigits cs (n * 10 + (c.toNat - 48)) else none

/-- The function `strconv.Atoi` for a 64-bit `int`, as the value and whether the error
is nil: an optional sign and decimal digits; the value is 0 on a syntax error and the
nearest bound on a range error. -/
def Atoi (s : Str) : Int × Bool :=
  let ds := if s.head? = some '-' ∨ s.head? = some '+' then s.drop 1 else s
  if ds = [] then (0, false)
  else
    match parseDigits ds 0 with
    | none => (0, false)
    | some n =>
      if s.head? = some '-' then
        (if n ≤ 2 ^ 63 then (-(n : Int), true) else (-(2 ^ 63 : Int), false))
      else
        (if n < 2 ^ 63 then ((n : Int), true) else ((2 ^ 63 - 1 : Int), false))

/-- The scan of `strings.Split` for a separator that is not empty: `acc` holds the
current piece reversed and `skip` the characters of a separator still to pass. -/
def splitAux (sep : Str) : Str → Str → Nat → List Str
  | [], acc, _ => [acc.reverse]
  | _ :: cs, acc, skip + 1 => splitAux sep cs acc skip
  | c :: cs, acc, 0 =>
    if hasPrefix sep (c :: cs) then acc.reverse :: splitAux sep cs [] (sep.length - 1)
    else splitAux sep cs (c :: acc) 0

/-- The function `strings.Split`; an empty separator splits after each character. -/
def Split (s sep : Str) : List Str :=
  if sep = [] then s.map (fun c => [c]) else splitAux sep s [] 0

/-- The method `GetInt`: the integer and the error returned with it, which is never nil. -/
def GetInt (DepthValues : Nat) (c : ConfigFile) (sect option : Str) :
    Run (Int × Option GetError) :=
  (GetString DepthValues c sect option).bind fun r =>
  match r with
  | .ok sv =>
    match Atoi sv with
    | (value, false) => .returns (value, some ⟨.CouldNotParse, "int".toList, sv, sect, option⟩)
    | (value, true) => .returns (value, some ⟨.TypeError, [], [], [], []⟩)
  | .error err => .returns (0, some ⟨.TypeError, [], err.Value, [], []⟩)

/-- The method `GetFloat64`. `ParseFloat` stands for `strconv.ParseFloat(sv, 64)`, as the
value and whether the error is nil, over a type `F` of floats with zero value `zero`. The
last statement reads `err.Value`, with `err` nil when `GetString` and `ParseFloat` both
succeed. -/
def GetFloat64 {F : Type} (zero : F) (ParseFloat : Str → F × Bool) (DepthValues : Nat)
    (c : ConfigFile) (sect option : Str) : Run (F × Option GetError) :=
  (GetString DepthValues c sect option).bind fun r =>
  let r : F × Option GetError :=
    match r with
    | .ok sv =>
      match ParseFloat sv with
      | (value, false) => (value, some ⟨.CouldNotParse, "float64".toList, sv, sect, option⟩)
      | (value, true) => (value, none)
    | .error err => (zero, some err)
  match r.2 with
  | some err => .returns (r.1, some ⟨.TypeError, [], err.Value, [], []⟩)
  | none => .panics .nilDereference

/-- The method `GetBool`; `BoolStrings` is the package table of the strings accepted as
booleans. -/
def GetBool (BoolStrings : List (Str × Bool)) (DepthValues : Nat) (c : ConfigFile)
    (sect option : Str) : Run (Bool × Option GetError) :=
  (GetString DepthValues c sect option).bind fun r =>
  match r with
  | .error err => .returns (false, some err)
  | .ok sv =>
    match mapGet BoolStrings (ToLower sv) with
    | none => .returns (false, some ⟨.CouldNotParse, "bool".toList, sv, sect, option⟩)
    | some value => .returns (value, none)

/-- The method `GetList`. -/
def GetList (DepthValues : Nat) (c : ConfigFile) (sect option delim : Str) :
    Run (List Str × Option GetError) :=
  (GetString DepthValues c sect option).bind fun r =>
  match r with
  | .error err => .returns ([], some err)
  | .ok sv => .returns ((Split sv delim).map TrimSpace, none)

/-! ## read.go -/

/-- The body of the loop of `stripComments`: cut `l` at the first occurrence of `c`. -/
def cutAt (l c : Str) : Str :=
  match Index l c with
  | some i => slice l 0 i
  | none => l

/-- The function `stripComments`. -/
def stripComments (l : Str) : Str :=
  [" ;".toList, "\t;".toList, " #".toList, "\t#".toList].foldl cutAt l

/-- The local variables of `Read` that live across lines, with the store. -/
structure ReadState where
  c : ConfigFile
  sect : Str
  option : Str
  deriving DecidableEq, Repr

/-- One pass through the body of the loop of `Read` on the text `raw` returned by
`ReadString`: the `switch` on the trimmed line. -/
def readLine (st : ReadState) (raw : Str) : Except ReadError ReadState :=
  let l := TrimSpace raw
  if l.length = 0 then .ok st
  else if l.head? = some '#' then .ok st
  else if l.head? = some ';' then .ok st
  else if l.length ≥ 3 ∧ ToLower (slice l 0 3) = "rem".toList then .ok st
  else if l.head? = some '[' ∧ l.getLast? = some ']' then
    let sect := TrimSpace (slice l 1 (l.length - 1))
    .ok ⟨AddSection st.c sect, sect, []⟩
  else if st.sect = [] then .error ⟨.BlankSection, l⟩
  else
    match IndexAny l "=:".toList with
    | some (i + 1) =>
      let option := TrimSpace (slice l 0 (i + 1))
      let value := TrimSpace (stripComments (l.drop (i + 1 + 1)))
      .ok ⟨AddOption st.c st.sect option value, st.sect, option⟩
    | _ =>
      if st.sect ≠ [] ∧ st.option ≠ [] then
        let prev := match GetRawString st.c st.sect st.option with
          | .ok v => v
          | .error _ => []
        let value := TrimSpace (stripComments l)
        .ok ⟨AddOption st.c st.sect st.option (prev ++ "\n".toList ++ value), st.sect, st.option⟩
      else .error ⟨.CouldNotParse, l⟩

/-- The successive results of `buf.ReadString('\n')` on a reader holding `text`: each
line with its terminator, and last the text after the final terminator, the one returned
with `io.EOF` (empty when the text ends in a terminator). -/
def readLines : Str → List Str
  | [] => [[]]
  | c :: cs =>
    if c = '\n' then [c] :: readLines cs
    else
      match readLines cs with
      | [] => [[c]]
      | l :: ls => (c :: l) :: ls

/-- The loop of `Read` over the results of `ReadString`. On the last one, read with
`io.EOF`, the loop stops after the `switch`, or at once when the trimmed line is empty:
`readLine` leaves the state unchanged on an empty line, so both are a pass of `readLine`. -/
def readLoop (st : ReadState) : List Str → Except ReadError ReadState
  | [] => .ok st
  | l :: ls =>
    match readLine st l with
    | .ok st1 => readLoop st1 ls
    | .error e => .error e

/-- The method `Read` on a reader that yields `reader` and then `io.EOF`; the receiver is
updated in place in the source and returned here. -/
def Read (c : ConfigFile) (reader : Str) : Except ReadError ConfigFile :=
  match readLoop ⟨c, "default".toList, []⟩ (readLines reader) with
  | .ok st => .ok st.c
  | .error e => .error e

/-- The function `ReadConfigBytes`. -/
def ReadConfigBytes (conf : Str) : Except ReadError ConfigFile :=
  match Read NewConfigFile conf with
  | .error err => .error ⟨.TypeError, err.Line⟩
  | .ok c => .ok c

/-! ## Vocabulary of the statements -/

/-- The key under which a section name is stored and looked up: lower-cased, with the
empty name standing for `default`. -/
def sectionKey (s : Str) : Str := ToLower (if s = [] then "default".toList else s)

/-- A trimmed line that `Read` skips as a full-line comment. -/
def isCommentLine (l : Str) : Bool :=
  l.head? = some '#' || l.head? = some ';' ||
    (decide (l.length ≥ 3) && ToLower (slice l 0 3) == "rem".toList)

/-- A trimmed line that `Read` takes as a section header. -/
def isHeaderLine (l : Str) : Bool :=
  l.head? = some '[' && l.getLast? = some ']'

/-- The text made of the given lines, a line terminator between each two. -/
def joinLines : List Str → Str
  | [] => []
  | [l] => l
  | l :: l2 :: ls => l ++ '\n' :: joinLines (l2 :: ls)

/-- The lines of a text, without their terminators. -/
def splitLines : Str → List Str
  | [] => [[]]
  | c :: cs =>
    if c = '\n' then [] :: splitLines cs
    else
      match splitLines cs with
      | [] => [[c]]
      | l :: ls => (c :: l) :: ls

/-- The store read from `[s]`, `x y = %(x y)s`. -/
def spacedStore : ConfigFile :=
  ⟨[("default".toList, []), ("s".toList, [("x y".toList, "%(x y)s".toList)])]⟩

/-- The store read from `[s]`, `u v = %(w z)s`, `w z = %(u v)s`. -/
def mutualStore : ConfigFile :=
  ⟨[("default".toList, []),
    ("s".toList, [("u v".toList, "%(w z)s".toList), ("w z".toList, "%(u v)s".toList)])]⟩

/-- The store read from `host = example.com`, `[web]`, `url = http://%(host)s/`. -/
def hostStore : ConfigFile :=
  ⟨[("default".toList, [("host".toList, "example.com".toList)]),
    ("web".toList, [("url".toList, "http://%(host)s/".toList)])]⟩

/-- The text up to the first `;` or `#` that comes right after a space or a tab, that
space or tab left out; the whole text when there is none. -/
def cutComment : Str → Str
  | [] => []
  | [c] => [c]
  | a :: b :: rest =>
    if (a = ' ' ∨ a = '\t') ∧ (b = ';' ∨ b = '#') then [] else a :: cutComment (b :: rest)

/-- A text that neither starts nor ends with white space. -/
def tight (t : Str) : Prop :=
  (∀ c, t.head? = some c → isSpace c = false) ∧ (∀ c, t.getLast? = some c → isSpace c = false)

/-- A text made of white space only. -/
def blank (t : Str) : Prop := ∀ c ∈ t, isSpace c = true

/-- The smaller of two positions, each of which may be absent. -/
def optMin : Option Nat → Option Nat → Option Nat
  | none, b => b
  | some a, none => some a
  | some a, some b => some (min a b)

/-- The earliest position at which one of the four comment markers occurs. -/
def earliestMarker (l : Str) : Option Nat :=
  optMin (optMin (Index l " ;".toList) (Index l "\t;".toList))
    (optMin (Index l " #".toList) (Index l "\t#".toList))

/-- The decimal digits of a natural number, `0` having none. -/
def decimal (n : Nat) : Str := ((Nat.digits 10 n).reverse).map (fun d => Char.ofNat (48 + d))

/-- The store read from `x = 1.5`. -/
def floatStore : ConfigFile := ⟨[("default".toList, [("x".toList, "1.5".toList)])]⟩

/-- The store read from `[s]`, `o = %(ref)s`. -/
def refStore : ConfigFile :=
  ⟨[("default".toList, []), ("s".toList, [("o".toList, "%(ref)s".toList)])]⟩

/-- The store read from `[École]`, `Clé = x`. -/
def ecoleStore : ConfigFile :=
  ⟨[("default".toList, []), ("école".toList, [("clé".toList, "x".toList)])]⟩

/-- The store read from `a = %(b)s`, `b = %(c)s`, `c = x`. -/
def chainStore : ConfigFile :=
  ⟨[("default".toList, [("a".toList, "%(b)s".toList), ("b".toList, "%(c)s".toList),
    ("c".toList, "x".toList)])]⟩

/-- The store read from `name = d`, `[s]`, `name = w`, `o = a%(name)sb`, `[t]`,
`o = a%(name)sb`. -/
def precedenceStore : ConfigFile :=
  ⟨[("default".toList, [("name".toList, "d".toList)]),
    ("s".toList, [("name".toList, "w".toList), ("o".toList, "a%(name)sb".toList)]),
    ("t".toList, [("o".toList, "a%(name)sb".toList)])]⟩

/-! ## Lemmas on the store -/

theorem mapGet_mapSet_same {α : Type} (m : List (Str × α)) (k : Str) (v : α) :
    mapGet (mapSet m k v) k = some v := by
  induction m with
  | nil => simp [mapSet, mapGet]
  | cons p m ih =>
    obtain ⟨k', v'⟩ := p
    by_cases h : k' = k
    · simp [mapSet, mapGet, h]
    · simp [mapSet, mapGet, h, ih]

theorem ToLower_eq_nil (s : Str) : ToLower s = [] ↔ s = [] := by
  simp [ToLower]

theorem sectionKey_congr (s t : Str) (h : ToLower s = ToLower t) :
    sectionKey s = sectionKey t := by
  unfold sectionKey
  by_cases hs : s = []
  · have ht : t = [] := by
      have := (ToLower_eq_nil t).1 (by rw [← h, hs]; rfl)
      exact this
    simp [hs, ht]
  · have ht : t ≠ [] := by
      intro ht
      exact hs ((ToLower_eq_nil s).1 (by rw [h, ht]; rfl))
    simp [hs, ht, h]

theorem HasSection_eq (c : ConfigFile) (s : Str) :
    HasSection c s = (mapGet c.data (sectionKey s)).isSome := rfl

theorem GetRawString_eq (c : ConfigFile) (s o : Str) :
    GetRawString c s o =
      match mapGet c.data (sectionKey s) with
      | some m =>
        match mapGet m (ToLower o) with
        | some value => .ok value
        | none => .error ⟨.OptionNotFound, [], [], sectionKey s, ToLower o⟩
      | none => .error ⟨.SectionNotFound, [], [], sectionKey s, ToLower o⟩ := rfl

theorem HasOption_eq (c : ConfigFile) (s o : Str) :
    HasOption c s o =
      match mapGet c.data (sectionKey s) with
      | none => false
      | some _ =>
        (lookup2 c DefaultSection (ToLower o)).isSome ||
          (lookup2 c (sectionKey s) (ToLower o)).isSome := rfl

theorem AddSection_get (c : ConfigFile) (s : Str) :
    ∃ m, mapGet (AddSection c s).data (sectionKey s) = some m := by
  unfold AddSection
  simp only []
  cases h : mapGet c.data (ToLower (if s = [] then "default".toList else s)) with
  | some m => exact ⟨m, h⟩
  | none => exact ⟨[], mapGet_mapSet_same _ _ _⟩

theorem AddOption_lookup (c : ConfigFile) (s o v : Str) :
    lookup2 (AddOption c s o v) (sectionKey s) (ToLower o) = some v := by
  obtain ⟨m, hm⟩ := AddSection_get c s
  unfold sectionKey at hm
  unfold AddOption
  simp only [hm]
  unfold lookup2 sectionKey
  simp only [mapGet_mapSet_same]

theorem GetRawString_no_section (c : ConfigFile) (s o : Str)
    (hm : mapGet c.data (sectionKey s) = none) :
    GetRawString c s o = .error ⟨.SectionNotFound, [], [], sectionKey s, ToLower o⟩ := by
  rw [GetRawString_eq, hm]

theorem GetRawString_no_option (c : ConfigFile) (s o : Str) (m : List (Str × Str))
    (hm : mapGet c.data (sectionKey s) = some m) (hv : mapGet m (ToLower o) = none) :
    GetRawString c s o = .error ⟨.OptionNotFound, [], [], sectionKey s, ToLower o⟩ := by
  rw [GetRawString_eq, hm]
  simp only [hv]

theorem GetRawString_found (c : ConfigFile) (s o : Str) (m : List (Str × Str)) (v : Str)
    (hm : mapGet c.data (sectionKey s) = some m) (hv : mapGet m (ToLower o) = some v) :
    GetRawString c s o = .ok v := by
  rw [GetRawString_eq, hm]
  simp only [hv]

theorem lookup2_some_section (c : ConfigFile) (k o v : Str) (h : lookup2 c k o = some v) :
    ∃ m, mapGet c.data k = some m ∧ mapGet m o = some v := by
  unfold lookup2 at h
  cases hm : mapGet c.data k with
  | none => simp [hm] at h
  | some m => exact ⟨m, rfl, by simpa [hm] using h⟩

theorem GetRawString_of_lookup (c : ConfigFile) (s o v : Str)
    (h : lookup2 c (sectionKey s) (ToLower o) = some v) : GetRawString c s o = .ok v := by
  obtain ⟨m, hm, hv⟩ := lookup2_some_section c _ _ _ h
  rw [GetRawString_eq, hm]
  simp only [hv]

theorem HasSection_of_lookup (c : ConfigFile) (s o v : Str)
    (h : lookup2 c (sectionKey s) (ToLower o) = some v) : HasSection c s = true := by
  obtain ⟨m, hm, _⟩ := lookup2_some_section c _ _ _ h
  rw [HasSection_eq, hm]
  rfl

theorem HasOption_of_lookup (c : ConfigFile) (s o v : Str)
    (h : lookup2 c (sectionKey s) (ToLower o) = some v) : HasOption c s o = true := by
  obtain ⟨m, hm, _⟩ := lookup2_some_section c _ _ _ h
  rw [HasOption_eq, hm]
  simp only [h, Option.isSome_some, Bool.or_true]

theorem inserted_visible (c : ConfigFile) (s o v s' o' : Str)
    (hs : ToLower s' = ToLower s) (ho : ToLower o' = ToLower o) :
    HasSection (AddOption c s o v) s' = true ∧
    HasOption (AddOption c s o v) s' o' = true ∧
    GetRawString (AddOption c s o v) s' o' = .ok v := by
  have h : lookup2 (AddOption c s o v) (sectionKey s') (ToLower o') = some v := by
    rw [sectionKey_congr s' s hs, ho]
    exact AddOption_lookup c s o v
  exact ⟨HasSection_of_lookup _ _ _ _ h, HasOption_of_lookup _ _ _ _ h,
    GetRawString_of_lookup _ _ _ _ h⟩

/-! ## Lemmas on the line switch of `Read` -/

theorem isCommentLine_false (l : Str) (h : isCommentLine l = false) :
    l.head? ≠ some '#' ∧ l.head? ≠ some ';' ∧
      ¬ (l.length ≥ 3 ∧ ToLower (slice l 0 3) = "rem".toList) := by
  unfold isCommentLine at h
  simp only [Bool.or_eq_false_iff, decide_eq_false_iff_not, Bool.and_eq_false_imp,
    decide_eq_true_eq, beq_eq_false_iff_ne, ne_eq] at h
  refine ⟨h.1.1, h.1.2, ?_⟩
  rintro ⟨h1, h2⟩
  exact h.2 h1 h2

theorem isHeaderLine_false (l : Str) (h : isHeaderLine l = false) :
    ¬ (l.head? = some '[' ∧ l.getLast? = some ']') := by
  unfold isHeaderLine at h
  simp only [Bool.and_eq_false_imp, decide_eq_true_eq, decide_eq_false_iff_not] at h
  rintro ⟨h1, h2⟩
  exact h h1 h2

/-- A pass of the loop on an option line: the `i > 0` case of the inner `switch`. -/
theorem readLine_option (st : ReadState) (raw : Str) (i : Nat)
    (hne : TrimSpace raw ≠ [])
    (hc : isCommentLine (TrimSpace raw) = false)
    (hh : isHeaderLine (TrimSpace raw) = false)
    (hs : st.sect ≠ [])
    (hi : IndexAny (TrimSpace raw) "=:".toList = some (i + 1)) :
    readLine st raw =
      .ok ⟨AddOption st.c st.sect (TrimSpace (slice (TrimSpace raw) 0 (i + 1)))
            (TrimSpace (stripComments ((TrimSpace raw).drop (i + 1 + 1)))),
          st.sect, TrimSpace (slice (TrimSpace raw) 0 (i + 1))⟩ := by
  obtain ⟨h1, h2, h3⟩ := isCommentLine_false _ hc
  have h4 := isHeaderLine_false _ hh
  have h0 : ¬ (TrimSpace raw).length = 0 := by
    intro h
    exact hne (List.length_eq_zero.1 h)
  unfold readLine
  simp only [h0, h1, h2, h3, h4, hs, if_false, hi]

/-- A pass of the loop on a continuation line: the second case of the inner `switch`. -/
theorem readLine_continuation (st : ReadState) (raw : Str)
    (hne : TrimSpace raw ≠ [])
    (hc : isCommentLine (TrimSpace raw) = false)
    (hh : isHeaderLine (TrimSpace raw) = false)
    (hs : st.sect ≠ []) (ho : st.option ≠ [])
    (hi : IndexAny (TrimSpace raw) "=:".toList = none) :
    readLine st raw =
      .ok ⟨AddOption st.c st.sect st.option
            ((match GetRawString st.c st.sect st.option with
              | .ok v => v
              | .error _ => []) ++ "\n".toList ++ TrimSpace (stripComments (TrimSpace raw))),
          st.sect, st.option⟩ := by
  obtain ⟨h1, h2, h3⟩ := isCommentLine_false _ hc
  have h4 := isHeaderLine_false _ hh
  have h0 : ¬ (TrimSpace raw).length = 0 := by
    intro h
    exact hne (List.length_eq_zero.1 h)
  unfold readLine
  simp only [h0, h1, h2, h3, h4, hs, ho, if_false, hi, ne_eq, not_false_eq_true, and_self,
    if_true]

/-- A pass of the loop on a full-line comment leaves the state unchanged. -/
theorem readLine_comment (st : ReadState) (raw : Str)
    (hc : isCommentLine (TrimSpace raw) = true) : readLine st raw = .ok st := by
  unfold isCommentLine at hc
  simp only [Bool.or_eq_true, decide_eq_true_eq, Bool.and_eq_true, beq_iff_eq] at hc
  unfold readLine
  simp only []
  by_cases h0 : (TrimSpace raw).length = 0
  · simp [h0]
  · by_cases h1 : (TrimSpace raw).head? = some '#'
    · simp [h0, h1]
    · by_cases h2 : (TrimSpace raw).head? = some ';'
      · simp [h0, h1, h2]
      · rcases hc with (hc | hc) | hc
        · exact absurd hc h1
        · exact absurd hc h2
        · simp only [h0, h1, h2, if_false, hc, and_self, if_true]

/-! ## Lemmas on reading line by line -/

theorem isSpace_newline : isSpace '\n' = true := by decide

theorem TrimSpace_append_newline (l : Str) : TrimSpace (l ++ ['\n']) = TrimSpace l := by
  unfold TrimSpace
  rw [List.dropWhile_append]
  by_cases h : (List.dropWhile isSpace l).isEmpty = true
  · have h2 : List.dropWhile isSpace l = [] := List.isEmpty_iff.1 h
    simp [h2, List.dropWhile_cons, isSpace_newline]
  · simp only [h, if_false, List.reverse_append, List.reverse_cons, List.reverse_nil,
      List.nil_append, List.singleton_append, List.dropWhile_cons, isSpace_newline, if_true,
      Bool.false_eq_true]

theorem readLine_append_newline (st : ReadState) (l : Str) :
    readLine st (l ++ ['\n']) = readLine st l := by
  unfold readLine
  rw [TrimSpace_append_newline]

theorem splitLines_ne_nil (t : Str) : splitLines t ≠ [] := by
  cases t with
  | nil => simp [splitLines]
  | cons c cs =>
    unfold splitLines
    by_cases h : c = '\n'
    · simp [h]
    · simp only [h, if_false]
      cases splitLines cs <;> simp

theorem joinLines_cons_cons (l : Str) (ls : List Str) (h : ls ≠ []) :
    joinLines (l :: ls) = l ++ '\n' :: joinLines ls := by
  cases ls with
  | nil => exact absurd rfl h
  | cons l2 ls => rfl

/-- Every text is the join of its lines, none of which holds a terminator. -/
theorem joinLines_splitLines (t : Str) :
    joinLines (splitLines t) = t ∧ ∀ l ∈ splitLines t, '\n' ∉ l := by
  induction t with
  | nil => simp [splitLines, joinLines]
  | cons c cs ih =>
    unfold splitLines
    by_cases h : c = '\n'
    · simp only [h, if_true]
      refine ⟨?_, ?_⟩
      · rw [joinLines_cons_cons _ _ (splitLines_ne_nil cs), ih.1]
        rfl
      · intro l hl
        rcases List.mem_cons.1 hl with hl | hl
        · simp [hl]
        · exact ih.2 l hl
    · simp only [h, if_false]
      cases hs : splitLines cs with
      | nil => exact absurd hs (splitLines_ne_nil cs)
      | cons l ls =>
        rw [hs] at ih
        simp only []
        refine ⟨?_, ?_⟩
        · cases ls with
          | nil =>
            have := ih.1
            simp only [joinLines] at this ⊢
            rw [this]
          | cons l2 ls =>
            have := ih.1
            simp only [joinLines] at this ⊢
            rw [← this]
            rfl
        · intro x hx
          rcases List.mem_cons.1 hx with hx | hx
          · subst hx
            intro hmem
            rcases List.mem_cons.1 hmem with hmem | hmem
            · exact h hmem.symm
            · exact ih.2 l (List.mem_cons_self _ _) hmem
          · exact ih.2 x (List.mem_cons_of_mem _ hx)

theorem readLines_line (l : Str) (h : '\n' ∉ l) : readLines l = [l] := by
  induction l with
  | nil => rfl
  | cons c cs ih =>
    have hc : c ≠ '\n' := fun e => h (by simp [e])
    have hcs : '\n' ∉ cs := fun e => h (List.mem_cons_of_mem _ e)
    unfold readLines
    simp only [hc, if_false, ih hcs]

theorem readLines_append_newline (l rest : Str) (h : '\n' ∉ l) :
    readLines (l ++ '\n' :: rest) = (l ++ ['\n']) :: readLines rest := by
  induction l with
  | nil => simp [readLines]
  | cons c cs ih =>
    have hc : c ≠ '\n' := fun e => h (by simp [e])
    have hcs : '\n' ∉ cs := fun e => h (List.mem_cons_of_mem _ e)
    have e : readLines (c :: (cs ++ '\n' :: rest)) =
        match readLines (cs ++ '\n' :: rest) with
        | [] => [[c]]
        | l :: ls => (c :: l) :: ls := by
      simp only [readLines, hc, if_false]
    rw [List.cons_append, e, ih hcs]
    rfl

theorem readLoop_append (st : ReadState) (xs ys : List Str) :
    readLoop st (xs ++ ys) =
      match readLoop st xs with
      | .ok st1 => readLoop st1 ys
      | .error e => .error e := by
  induction xs generalizing st with
  | nil => rfl
  | cons x xs ih =>
    simp only [List.cons_append, readLoop]
    cases readLine st x with
    | ok st1 => exact ih st1
    | error e => rfl

/-- Reading a text is running the line switch over its lines in order. -/
theorem readLoop_readLines_joinLines (st : ReadState) (ls : List Str)
    (h : ∀ l ∈ ls, '\n' ∉ l) : readLoop st (readLines (joinLines ls)) = readLoop st ls := by
  induction ls generalizing st with
  | nil =>
    have : readLine st [] = .ok st := by
      unfold readLine
      simp [TrimSpace]
    simp [joinLines, readLines, readLoop, this]
  | cons l ls ih =>
    have hl : '\n' ∉ l := h l (List.mem_cons_self _ _)
    have hls : ∀ x ∈ ls, '\n' ∉ x := fun x hx => h x (List.mem_cons_of_mem _ hx)
    cases ls with
    | nil => simp only [joinLines, readLines_line l hl]
    | cons l2 ls =>
      rw [joinLines_cons_cons _ _ (by simp), readLines_append_newline _ _ hl]
      simp only [readLoop, readLine_append_newline]
      cases readLine st l with
      | ok st1 => exact ih st1 hls
      | error e => rfl

theorem Read_joinLines (c : ConfigFile) (ls : List Str) (h : ∀ l ∈ ls, '\n' ∉ l) :
    Read c (joinLines ls) =
      match readLoop ⟨c, "default".toList, []⟩ ls with
      | .ok st => .ok st.c
      | .error e => .error e := by
  unfold Read
  rw [readLoop_readLines_joinLines _ _ h]

/-! ## Lemmas on `stripComments` -/

theorem stripComments_eq (l : Str) :
    stripComments l =
      cutAt (cutAt (cutAt (cutAt l " ;".toList) "\t;".toList) " #".toList) "\t#".toList := rfl

theorem Index_cons (c : Char) (cs sub : Str) :
    Index (c :: cs) sub =
      if hasPrefix sub (c :: cs) then some 0 else (Index cs sub).map (· + 1) := rfl

theorem hasPrefix_two (a b c : Char) (cs : Str) :
    hasPrefix [a, b] (c :: cs) = (a == c && (cs.head? == some b)) := by
  cases cs with
  | nil => simp [hasPrefix]
  | cons d ds =>
    simp only [hasPrefix, List.head?_cons, Bool.and_true]
    congr 1
    by_cases h : b = d
    · simp [h]
    · have h2 : ¬ d = b := fun e => h e.symm
      simp [h, h2]

theorem cutComment_cons (c : Char) (y : Str) :
    cutComment (c :: y) =
      if (c = ' ' ∨ c = '\t') ∧ (y.head? = some ';' ∨ y.head? = some '#') then []
      else c :: cutComment y := by
  cases y with
  | nil => simp [cutComment]
  | cons d ds => simp [cutComment]

theorem cutAt_nil (m : Str) : cutAt [] m = [] := by
  unfold cutAt Index
  split <;> simp_all [slice]

theorem cutAt_cons (a b c : Char) (cs : Str) :
    cutAt (c :: cs) [a, b] =
      if a = c ∧ cs.head? = some b then [] else c :: cutAt cs [a, b] := by
  unfold cutAt
  rw [Index_cons, hasPrefix_two]
  by_cases h : a = c ∧ cs.head? = some b
  · simp [h, slice]
  · have : (a == c && (cs.head? == some b)) = false := by
      rw [Bool.eq_false_iff]
      intro e
      simp only [Bool.and_eq_true, beq_iff_eq] at e
      exact h e
    simp only [this, h, if_false, Bool.false_eq_true]
    cases Index cs [a, b] with
    | none => rfl
    | some j => simp [slice]

theorem head_cutAt_comment (a b : Char) (ha : a = ' ' ∨ a = '\t') (cs : Str) :
    ((cutAt cs [a, b]).head? = some ';' ∨ (cutAt cs [a, b]).head? = some '#') ↔
      (cs.head? = some ';' ∨ cs.head? = some '#') := by
  cases cs with
  | nil => rw [cutAt_nil]
  | cons d ds =>
    rw [cutAt_cons]
    by_cases h2 : a = d ∧ ds.head? = some b
    · obtain ⟨h3, h4⟩ := h2
      subst h3
      simp only [h4, and_self, if_true, List.head?_nil, List.head?_cons, Option.some.injEq]
      rcases ha with ha | ha <;> subst ha <;> decide
    · simp [h2]

/-- Cutting at one marker of `stripComments`, a space or a tab followed by `;` or `#`,
keeps the text up to the first comment start. -/
theorem cutComment_cutAt (a b : Char) (ha : a = ' ' ∨ a = '\t') (hb : b = ';' ∨ b = '#')
    (x : Str) : cutComment (cutAt x [a, b]) = cutComment x := by
  induction x with
  | nil => rw [cutAt_nil]
  | cons c cs ih =>
    rw [cutAt_cons]
    by_cases h : a = c ∧ cs.head? = some b
    · obtain ⟨h1, h2⟩ := h
      subst h1
      simp only [h2, and_self, if_true]
      rw [cutComment_cons]
      have : (a = ' ' ∨ a = '\t') ∧ (cs.head? = some ';' ∨ cs.head? = some '#') := by
        refine ⟨ha, ?_⟩
        rw [h2]
        rcases hb with hb | hb
        · left; rw [hb]
        · right; rw [hb]
      simp only [this, and_self, if_true]
      rfl
    · simp only [h, if_false]
      rw [cutComment_cons, cutComment_cons c cs, ih]
      by_cases hcut : (cs.head? = some ';' ∨ cs.head? = some '#')
      · have h2 := (head_cutAt_comment a b ha cs).2 hcut
        simp only [hcut, h2]
      · have h2 : ¬ ((cutAt cs [a, b]).head? = some ';' ∨ (cutAt cs [a, b]).head? = some '#') :=
          fun e => hcut ((head_cutAt_comment a b ha cs).1 e)
        simp only [hcut, h2]

theorem head_cutAt (a b : Char) (cs : Str) (x : Char)
    (h : (cutAt cs [a, b]).head? = some x) : cs.head? = some x := by
  cases cs with
  | nil => rw [cutAt_nil] at h; exact h
  | cons d ds =>
    rw [cutAt_cons] at h
    by_cases h2 : a = d ∧ ds.head? = some b
    · simp [h2] at h
    · simpa [h2] using h

theorem cutAt_cons_eq (a b c : Char) (cs : Str) (h : cutAt (c :: cs) [a, b] = c :: cs) :
    ¬ (a = c ∧ cs.head? = some b) ∧ cutAt cs [a, b] = cs := by
  rw [cutAt_cons] at h
  by_cases h2 : a = c ∧ cs.head? = some b
  · simp [h2] at h
  · simp only [h2, if_false, List.cons.injEq, true_and] at h
    exact ⟨h2, h⟩

/-- Cutting twice at the same marker is cutting once. -/
theorem cutAt_cutAt_same (a b : Char) (x : Str) :
    cutAt (cutAt x [a, b]) [a, b] = cutAt x [a, b] := by
  induction x with
  | nil => rw [cutAt_nil, cutAt_nil]
  | cons c cs ih =>
    rw [cutAt_cons]
    by_cases h : a = c ∧ cs.head? = some b
    · simp only [h, and_self, if_true, cutAt_nil]
    · simp only [h, if_false]
      rw [cutAt_cons, ih]
      have : ¬ (a = c ∧ (cutAt cs [a, b]).head? = some b) := by
        rintro ⟨h1, h2⟩
        exact h ⟨h1, head_cutAt a b cs b h2⟩
      simp only [this, if_false]

/-- A text without occurrence of a marker has none in its prefixes. -/
theorem cutAt_take (a b : Char) (x : Str) (k : Nat) (h : cutAt x [a, b] = x) :
    cutAt (x.take k) [a, b] = x.take k := by
  induction x generalizing k with
  | nil => simp [cutAt_nil]
  | cons c cs ih =>
    cases k with
    | zero => simp [cutAt_nil]
    | succ k =>
      obtain ⟨h1, h2⟩ := cutAt_cons_eq a b c cs h
      rw [List.take_succ_cons, cutAt_cons, ih k h2]
      have : ¬ (a = c ∧ (cs.take k).head? = some b) := by
        rintro ⟨h3, h4⟩
        apply h1
        refine ⟨h3, ?_⟩
        rw [List.head?_take] at h4
        by_cases hk : k = 0
        · simp [hk] at h4
        · simpa [hk] using h4
      simp only [this, if_false]

theorem cutAt_prefix (x m : Str) : ∃ k, cutAt x m = x.take k := by
  unfold cutAt
  cases Index x m with
  | none => exact ⟨x.length, by simp⟩
  | some i => exact ⟨i, by simp [slice]⟩

theorem cutAt_cutAt_other (a b a2 b2 : Char) (x : Str) (h : cutAt x [a, b] = x) :
    cutAt (cutAt x [a2, b2]) [a, b] = cutAt x [a2, b2] := by
  obtain ⟨k, hk⟩ := cutAt_prefix x [a2, b2]
  rw [hk]
  exact cutAt_take a b x k h

theorem cutAt_of_Index_none (x m : Str) (h : Index x m = none) : cutAt x m = x := by
  unfold cutAt
  rw [h]

/-- A text without occurrence of any of the four markers has no comment start. -/
theorem cutComment_of_free (x : Str)
    (h1 : cutAt x " ;".toList = x) (h2 : cutAt x "\t;".toList = x)
    (h3 : cutAt x " #".toList = x) (h4 : cutAt x "\t#".toList = x) : cutComment x = x := by
  induction x with
  | nil => rfl
  | cons c cs ih =>
    obtain ⟨n1, t1⟩ := cutAt_cons_eq ' ' ';' c cs h1
    obtain ⟨n2, t2⟩ := cutAt_cons_eq '\t' ';' c cs h2
    obtain ⟨n3, t3⟩ := cutAt_cons_eq ' ' '#' c cs h3
    obtain ⟨n4, t4⟩ := cutAt_cons_eq '\t' '#' c cs h4
    rw [cutComment_cons, ih t1 t2 t3 t4]
    have : ¬ ((c = ' ' ∨ c = '\t') ∧ (cs.head? = some ';' ∨ cs.head? = some '#')) := by
      rintro ⟨hc | hc, hd | hd⟩
      · exact n1 ⟨hc.symm, hd⟩
      · exact n3 ⟨hc.symm, hd⟩
      · exact n2 ⟨hc.symm, hd⟩
      · exact n4 ⟨hc.symm, hd⟩
    simp only [this, if_false]

/-- The function `stripComments` returns the text up to the first `;` or `#` that comes
right after a space or a tab. -/
theorem stripComments_eq_cutComment (l : Str) : stripComments l = cutComment l := by
  have e1 : cutComment (stripComments l) = cutComment l := by
    rw [stripComments_eq]
    rw [show "\t#".toList = ['\t', '#'] from rfl, show " #".toList = [' ', '#'] from rfl,
      show "\t;".toList = ['\t', ';'] from rfl, show " ;".toList = [' ', ';'] from rfl]
    rw [cutComment_cutAt '\t' '#' (Or.inr rfl) (Or.inr rfl),
      cutComment_cutAt ' ' '#' (Or.inl rfl) (Or.inr rfl),
      cutComment_cutAt '\t' ';' (Or.inr rfl) (Or.inl rfl),
      cutComment_cutAt ' ' ';' (Or.inl rfl) (Or.inl rfl)]
  have e2 : cutComment (stripComments l) = stripComments l := by
    apply cutComment_of_free
    · rw [stripComments_eq]
      rw [show "\t#".toList = ['\t', '#'] from rfl, show " #".toList = [' ', '#'] from rfl,
        show "\t;".toList = ['\t', ';'] from rfl, show " ;".toList = [' ', ';'] from rfl]
      exact cutAt_cutAt_other _ _ _ _ _ (cutAt_cutAt_other _ _ _ _ _
        (cutAt_cutAt_other _ _ _ _ _ (cutAt_cutAt_same _ _ _)))
    · rw [stripComments_eq]
      rw [show "\t#".toList = ['\t', '#'] from rfl, show " #".toList = [' ', '#'] from rfl,
        show "\t;".toList = ['\t', ';'] from rfl, show " ;".toList = [' ', ';'] from rfl]
      exact cutAt_cutAt_other _ _ _ _ _ (cutAt_cutAt_other _ _ _ _ _ (cutAt_cutAt_same _ _ _))
    · rw [stripComments_eq]
      rw [show "\t#".toList = ['\t', '#'] from rfl, show " #".toList = [' ', '#'] from rfl,
        show "\t;".toList = ['\t', ';'] from rfl, show " ;".toList = [' ', ';'] from rfl]
      exact cutAt_cutAt_other _ _ _ _ _ (cutAt_cutAt_same _ _ _)
    · rw [stripComments_eq]
      rw [show "\t#".toList = ['\t', '#'] from rfl, show " #".toList = [' ', '#'] from rfl,
        show "\t;".toList = ['\t', ';'] from rfl, show " ;".toList = [' ', ';'] from rfl]
      exact cutAt_cutAt_same _ _ _
  rw [← e2, e1]

/-- On a text without occurrence of any of the four markers `stripComments` is the
identity. -/
theorem stripComments_of_free (x : Str)
    (h1 : cutAt x " ;".toList = x) (h2 : cutAt x "\t;".toList = x)
    (h3 : cutAt x " #".toList = x) (h4 : cutAt x "\t#".toList = x) : stripComments x = x := by
  rw [stripComments_eq, h1, h2, h3, h4]

/-! ## Lemmas on `TrimSpace` -/

theorem blank_reverse (b : Str) (h : blank b) : blank b.reverse := by
  intro c hc
  exact h c (List.mem_reverse.1 hc)

theorem blank_append (a b : Str) (ha : blank a) (hb : blank b) : blank (a ++ b) := by
  intro c hc
  rcases List.mem_append.1 hc with hc | hc
  · exact ha c hc
  · exact hb c hc

theorem TrimSpace_blank (s : Str) (h : blank s) : TrimSpace s = [] := by
  unfold TrimSpace
  rw [List.dropWhile_eq_nil_iff.2 h]
  rfl

/-- The trimmed text is what stands between the leading and the trailing white space. -/
theorem TrimSpace_of_tight (a t b : Str) (ha : blank a) (hb : blank b) (ht : tight t) :
    TrimSpace (a ++ t ++ b) = t := by
  cases t with
  | nil =>
    rw [List.append_nil]
    exact TrimSpace_blank _ (blank_append a b ha hb)
  | cons c t' =>
    have hc : isSpace c = false := ht.1 c rfl
    unfold TrimSpace
    rw [List.append_assoc, List.dropWhile_append_of_pos ha, List.cons_append,
      List.dropWhile_cons]
    simp only [hc, Bool.false_eq_true, if_false]
    rw [← List.cons_append, List.reverse_append,
      List.dropWhile_append_of_pos (blank_reverse b hb)]
    cases hr : (c :: t').reverse with
    | nil => simp at hr
    | cons x r =>
      have hx : (c :: t').getLast? = some x := by
        rw [← List.head?_reverse, hr]
        rfl
      have hx2 : isSpace x = false := ht.2 x hx
      rw [List.dropWhile_cons]
      simp only [hx2, Bool.false_eq_true, if_false]
      rw [← hr, List.reverse_reverse]

theorem head_dropWhile_isSpace (s : Str) (c : Char)
    (h : (s.dropWhile isSpace).head? = some c) : isSpace c = false := by
  have := List.head?_dropWhile_not isSpace s
  rw [h] at this
  exact this

theorem getLast_dropWhile (p : Char → Bool) (s : Str) (c : Char)
    (h : (s.dropWhile p).getLast? = some c) : s.getLast? = some c := by
  obtain ⟨pre, hpre⟩ := List.dropWhile_suffix (l := s) p
  have hne : s.dropWhile p ≠ [] := by
    intro e
    rw [e] at h
    cases h
  rw [← hpre, List.getLast?_append_of_ne_nil _ hne, h]

/-- Every text is its trimmed text between leading and trailing white space, and the
trimmed text neither starts nor ends with white space. -/
theorem TrimSpace_decompose (s : Str) :
    ∃ a b, blank a ∧ blank b ∧ s = a ++ TrimSpace s ++ b ∧ tight (TrimSpace s) := by
  refine ⟨s.takeWhile isSpace, (((s.dropWhile isSpace).reverse).takeWhile isSpace).reverse,
    ?_, ?_, ?_, ?_⟩
  · intro c hc
    exact List.mem_takeWhile_imp hc
  · intro c hc
    exact List.mem_takeWhile_imp (List.mem_reverse.1 hc)
  · unfold TrimSpace
    rw [List.append_assoc, ← List.reverse_append, List.takeWhile_append_dropWhile,
      List.reverse_reverse, List.takeWhile_append_dropWhile]
  · unfold TrimSpace
    constructor
    · intro c hc
      rw [List.head?_reverse] at hc
      have h2 := getLast_dropWhile isSpace _ c hc
      rw [List.getLast?_reverse] at h2
      exact head_dropWhile_isSpace s c h2
    · intro c hc
      rw [List.getLast?_reverse] at hc
      exact head_dropWhile_isSpace _ c hc

theorem tight_TrimSpace (s : Str) : tight (TrimSpace s) := by
  obtain ⟨_, _, _, _, _, h⟩ := TrimSpace_decompose s
  exact h

theorem mem_TrimSpace (s : Str) (c : Char) (h : c ∈ TrimSpace s) : c ∈ s := by
  unfold TrimSpace at h
  have h1 := (List.dropWhile_sublist isSpace).subset (List.mem_reverse.1 h)
  exact (List.dropWhile_sublist isSpace).subset (List.mem_reverse.1 h1)

theorem TrimSpace_ne_nil_of_head (x : Str) (c : Char) (h : x.head? = some c)
    (hc : isSpace c = false) : TrimSpace x ≠ [] := by
  intro e
  obtain ⟨a, b, ha, hb, hx, _⟩ := TrimSpace_decompose x
  rw [e, List.append_nil] at hx
  have hmem : c ∈ x := by
    obtain ⟨ys, hys⟩ := List.head?_eq_some_iff.1 h
    rw [hys]
    exact List.mem_cons_self _ _
  rw [hx] at hmem
  have := blank_append a b ha hb c hmem
  rw [hc] at this
  cases this

theorem TrimSpace_head_not_space (s : Str) (c : Char) (h : (TrimSpace s).head? = some c) :
    isSpace c = false := (tight_TrimSpace s).1 c h

theorem IndexAny_eq_none (l chars : Str) (h : ∀ c ∈ l, c ∉ chars) :
    IndexAny l chars = none := by
  induction l with
  | nil => rfl
  | cons c cs ih =>
    have hc : chars.contains c = false := by
      rw [Bool.eq_false_iff]
      intro e
      exact h c (List.mem_cons_self _ _) (by simpa using e)
    have := ih (fun x hx => h x (List.mem_cons_of_mem _ hx))
    simp only [IndexAny, hc, this, Bool.false_eq_true, if_false, Option.map_none']

theorem option_name_ne_nil (raw : Str) (i : Nat) (hne : TrimSpace raw ≠ []) :
    TrimSpace (slice (TrimSpace raw) 0 (i + 1)) ≠ [] := by
  cases hl : TrimSpace raw with
  | nil => exact absurd hl hne
  | cons c l' =>
    have hc : isSpace c = false := TrimSpace_head_not_space raw c (by rw [hl]; rfl)
    exact TrimSpace_ne_nil_of_head _ c (by simp [slice]) hc

theorem GetRawString_AddOption (c : ConfigFile) (s o v : Str) :
    GetRawString (AddOption c s o v) s o = .ok v :=
  (inserted_visible c s o v s o rfl rfl).2.2

/-! ## Lemmas on a section header followed by an option line -/

theorem lowerCode_space (n : Nat)
    (h : n = 0x85 ∨ n = 0xA0 ∨ n = 0x1680 ∨ (0x2000 ≤ n ∧ n ≤ 0x200A) ∨ n = 0x2028 ∨
      n = 0x2029 ∨ n = 0x202F ∨ n = 0x205F ∨ n = 0x3000) : lowerCode n = n := by
  rcases h with h | h | h | ⟨h1, h2⟩ | h | h | h | h | h
  all_goals first
    | (subst h; decide)
    | (interval_cases n <;> decide)

theorem isSpace_toLower (c : Char) (h : isSpace c = true) : unicodeToLower c = c := by
  have hc : Char.ofNat c.toNat = c := Char.ofNat_toNat c
  unfold isSpace at h
  simp only [Bool.or_eq_true, beq_iff_eq, Bool.and_eq_true, decide_eq_true_eq] at h
  have key : lowerCode c.toNat = c.toNat := by
    rcases h with ((((((((((((((h | h) | h) | h) | h) | h) | h) | h) | h) | h) | h) | h) | h) | h) | h)
    all_goals first
      | (subst h; decide)
      | (rw [h]; decide)
      | (apply lowerCode_space; omega)
  unfold unicodeToLower
  rw [key, hc]

theorem IndexAny_cons (c : Char) (cs chars : Str) :
    IndexAny (c :: cs) chars =
      if chars.contains c then some 0 else (IndexAny cs chars).map (· + 1) := rfl

theorem IndexAny_append (x y chars : Str) (d : Char) (hx : ∀ c ∈ x, c ∉ chars)
    (hd : d ∈ chars) : IndexAny (x ++ d :: y) chars = some x.length := by
  induction x with
  | nil => simp [IndexAny, hd]
  | cons c cs ih =>
    have hc : chars.contains c = false := by
      rw [Bool.eq_false_iff]
      intro e
      exact hx c (List.mem_cons_self _ _) (by simpa using e)
    have := ih (fun z hz => hx z (List.mem_cons_of_mem _ hz))
    rw [List.cons_append, IndexAny_cons, this]
    simp only [hc, Bool.false_eq_true, if_false, Option.map_some', List.length_cons]

theorem TrimSpace_header (s : Str) :
    TrimSpace ('[' :: (s ++ [']'])) = '[' :: (s ++ [']']) := by
  have ht : tight ('[' :: (s ++ [']'])) := by
    constructor
    · intro c hc
      simp only [List.head?_cons, Option.some.injEq] at hc
      subst hc
      decide
    · intro c hc
      rw [← List.cons_append, List.getLast?_concat] at hc
      injection hc with hc
      subst hc
      decide
  have := TrimSpace_of_tight [] ('[' :: (s ++ [']'])) [] (by intro c hc; cases hc)
    (by intro c hc; cases hc) ht
  simpa using this

/-- A pass of the loop on a section header. -/
theorem readLine_header (st : ReadState) (s : Str) :
    readLine st ('[' :: (s ++ [']'])) =
      .ok ⟨AddSection st.c (TrimSpace s), TrimSpace s, []⟩ := by
  unfold readLine
  rw [TrimSpace_header]
  have h0 : ¬ ('[' :: (s ++ [']'])).length = 0 := by simp
  have h1 : ('[' :: (s ++ [']'])).head? ≠ some '#' := by simp
  have h2 : ('[' :: (s ++ [']'])).head? ≠ some ';' := by simp
  have h3 : ¬ (('[' :: (s ++ [']'])).length ≥ 3 ∧
      ToLower (slice ('[' :: (s ++ [']'])) 0 3) = "rem".toList) := by
    rintro ⟨_, h⟩
    simp only [slice, List.drop_zero, Nat.sub_zero, List.take_succ_cons, ToLower,
      List.map_cons] at h
    have : "rem".toList = 'r' :: 'e' :: 'm' :: [] := rfl
    rw [this] at h
    injection h with h _
    revert h
    decide
  have h4 : ('[' :: (s ++ [']'])).head? = some '[' ∧
      ('[' :: (s ++ [']'])).getLast? = some ']' := by
    refine ⟨rfl, ?_⟩
    rw [← List.cons_append, List.getLast?_concat]
  have h5 : slice ('[' :: (s ++ [']'])) 1 (('[' :: (s ++ [']'])).length - 1) = s := by
    simp [slice]
  simp only [h0, h1, h2, h3, h4, h5, if_false, and_self, if_true]
  rfl

/-- The trimmed form of the line `k = v`, the name `k` being `TrimSpace k` followed by
white space `b`: the text after the separator is a prefix `w` of ` v` whose trimmed
form is that of `v`. -/
theorem TrimSpace_option_line (k v : Str) (hk0 : TrimSpace k ≠ []) :
    ∃ b w, blank b ∧ (∀ c ∈ b, c ∈ k) ∧
      TrimSpace (k ++ " = ".toList ++ v) = TrimSpace k ++ b ++ ' ' :: '=' :: w ∧
      (∃ n, w = (' ' :: v).take n) ∧ TrimSpace w = TrimSpace v := by
  obtain ⟨a, b, ha, hb, hk, htk⟩ := TrimSpace_decompose k
  obtain ⟨a2, b2, ha2, hb2, hv, htv⟩ := TrimSpace_decompose v
  have hbk : ∀ c ∈ b, c ∈ k := by
    intro c hc
    rw [hk]
    exact List.mem_append_right _ hc
  have hhead : ∀ X : Str, ∀ c, (TrimSpace k ++ X).head? = some c → isSpace c = false := by
    intro X c hc
    rw [List.head?_append_of_ne_nil _ hk0] at hc
    exact htk.1 c hc
  have hsp : isSpace ' ' = true := by decide
  by_cases hv0 : TrimSpace v = []
  · refine ⟨b, [], hb, hbk, ?_, ⟨0, rfl⟩, ?_⟩
    · have hblank : blank (' ' :: v) := by
        intro c hc
        rcases List.mem_cons.1 hc with hc | hc
        · rw [hc]; exact hsp
        · rw [hv, hv0, List.append_nil] at hc
          exact blank_append a2 b2 ha2 hb2 c hc
      have ht : tight (TrimSpace k ++ b ++ [' ', '=']) := by
        constructor
        · intro c hc
          rw [List.append_assoc] at hc
          exact hhead _ c hc
        · intro c hc
          rw [show TrimSpace k ++ b ++ [' ', '='] = (TrimSpace k ++ b ++ [' ']) ++ ['='] from by
            simp, List.getLast?_concat] at hc
          injection hc with hc
          subst hc
          decide
      have e : k ++ " = ".toList ++ v = a ++ (TrimSpace k ++ b ++ [' ', '=']) ++ (' ' :: v) := by
        conv_lhs => rw [hk]
        rw [show " = ".toList = [' ', '=', ' '] from rfl]
        simp
      rw [e, TrimSpace_of_tight a _ _ ha hblank ht]
    · rw [hv0]
      rfl
  · refine ⟨b, ' ' :: (a2 ++ TrimSpace v), hb, hbk, ?_, ⟨(' ' :: (a2 ++ TrimSpace v)).length, ?_⟩,
      ?_⟩
    · have ht : tight (TrimSpace k ++ b ++ ' ' :: '=' :: ' ' :: (a2 ++ TrimSpace v)) := by
        constructor
        · intro c hc
          rw [List.append_assoc] at hc
          exact hhead _ c hc
        · intro c hc
          rw [show TrimSpace k ++ b ++ ' ' :: '=' :: ' ' :: (a2 ++ TrimSpace v) =
            (TrimSpace k ++ b ++ ' ' :: '=' :: ' ' :: a2) ++ TrimSpace v from by simp,
            List.getLast?_append_of_ne_nil _ hv0] at hc
          exact htv.2 c hc
      have e : k ++ " = ".toList ++ v =
          a ++ (TrimSpace k ++ b ++ ' ' :: '=' :: ' ' :: (a2 ++ TrimSpace v)) ++ b2 := by
        conv_lhs => rw [hk, hv]
        rw [show " = ".toList = [' ', '=', ' '] from rfl]
        simp
      rw [e, TrimSpace_of_tight a _ _ ha hb2 ht]
    · have e : ' ' :: v = (' ' :: (a2 ++ TrimSpace v)) ++ b2 := by
        rw [List.cons_append]
        exact congrArg _ hv
      rw [e, List.take_left]
    · have hb1 : blank (' ' :: a2) := by
        intro c hc
        rcases List.mem_cons.1 hc with hc | hc
        · rw [hc]; exact hsp
        · exact ha2 c hc
      have := TrimSpace_of_tight (' ' :: a2) (TrimSpace v) [] hb1 (by intro c hc; cases hc) htv
      simpa using this

/-- A name that is not a comment line, followed by white space, is not one either. -/
theorem isCommentLine_append (tk rest' : Str) (sp : Char) (hk0 : tk ≠ [])
    (hkc : isCommentLine tk = false) (hsp : isSpace sp = true) :
    isCommentLine (tk ++ sp :: rest') = false := by
  obtain ⟨h1, h2, h3⟩ := isCommentLine_false tk hkc
  have hne : ∀ x : Char, isSpace x = false → unicodeToLower sp ≠ x := by
    intro x hx e
    rw [isSpace_toLower sp hsp] at e
    rw [e, hx] at hsp
    cases hsp
  have hrem : "rem".toList = 'r' :: 'e' :: 'm' :: [] := rfl
  unfold isCommentLine
  rw [List.head?_append_of_ne_nil _ hk0]
  simp only [h1, h2, decide_False, Bool.false_or, Bool.or_false, Bool.and_eq_false_imp,
    decide_eq_true_eq, beq_eq_false_iff_ne, ne_eq]
  intro _ h
  cases tk with
  | nil => exact hk0 rfl
  | cons c1 t1 =>
    cases t1 with
    | nil =>
      simp only [slice, List.drop_zero, Nat.sub_zero, List.cons_append, List.nil_append,
        List.take_succ_cons, ToLower, List.map_cons] at h
      rw [hrem] at h
      injection h with _ h
      injection h with h _
      exact hne 'e' (by decide) h
    | cons c2 t2 =>
      cases t2 with
      | nil =>
        simp only [slice, List.drop_zero, Nat.sub_zero, List.cons_append, List.nil_append,
          List.take_succ_cons, ToLower, List.map_cons] at h
        rw [hrem] at h
        injection h with _ h
        injection h with _ h
        injection h with h _
        exact hne 'm' (by decide) h
      | cons c3 t3 =>
        apply h3
        refine ⟨by simp, ?_⟩
        simpa [slice] using h

theorem cutAt_space_cons (a b : Char) (v : Str) (hb : b = ';' ∨ b = '#')
    (hv : Index v [a, b] = none) (hv1 : v.head? ≠ some ';' ∧ v.head? ≠ some '#') (n : Nat) :
    cutAt ((' ' :: v).take n) [a, b] = (' ' :: v).take n := by
  apply cutAt_take
  rw [cutAt_cons, cutAt_of_Index_none v _ hv]
  have : ¬ (a = ' ' ∧ v.head? = some b) := by
    rintro ⟨_, h⟩
    rcases hb with hb | hb
    · exact hv1.1 (hb ▸ h)
    · exact hv1.2 (hb ▸ h)
  simp only [this, if_false]

/-- A pass of the loop on the line `k = v`, for a name `k` that is neither a comment nor
a header start and holds no separator, and a value `v` without comment start: the
option `TrimSpace k` gets the value `TrimSpace v`. -/
theorem readLine_assignment (st : ReadState) (k v : Str)
    (hs : st.sect ≠ [])
    (hk0 : TrimSpace k ≠ [])
    (hksep : '=' ∉ k ∧ ':' ∉ k)
    (hkc : isCommentLine (TrimSpace k) = false)
    (hkh : (TrimSpace k).head? ≠ some '[')
    (hvm : Index v " ;".toList = none ∧ Index v "\t;".toList = none ∧
      Index v " #".toList = none ∧ Index v "\t#".toList = none)
    (hv1 : v.head? ≠ some ';' ∧ v.head? ≠ some '#') :
    readLine st (k ++ " = ".toList ++ v) =
      .ok ⟨AddOption st.c st.sect (TrimSpace k) (TrimSpace v), st.sect, TrimSpace k⟩ := by
  obtain ⟨b, w, hb, hbk, hl, ⟨n, hw⟩, htw⟩ := TrimSpace_option_line k v hk0
  have hl2 : TrimSpace (k ++ " = ".toList ++ v) = (TrimSpace k ++ b ++ [' ']) ++ '=' :: w := by
    rw [hl]
    simp
  have hne : TrimSpace (k ++ " = ".toList ++ v) ≠ [] := by
    rw [hl2]
    simp
  have hc : isCommentLine (TrimSpace (k ++ " = ".toList ++ v)) = false := by
    rw [hl]
    cases b with
    | nil =>
      rw [List.append_nil]
      exact isCommentLine_append _ _ ' ' hk0 hkc (by decide)
    | cons b0 b' =>
      rw [List.append_assoc, List.cons_append]
      exact isCommentLine_append _ _ b0 hk0 hkc (hb b0 (List.mem_cons_self _ _))
  have hh : isHeaderLine (TrimSpace (k ++ " = ".toList ++ v)) = false := by
    rw [hl, List.append_assoc]
    unfold isHeaderLine
    rw [List.head?_append_of_ne_nil _ hk0]
    simp [hkh]
  have hi : IndexAny (TrimSpace (k ++ " = ".toList ++ v)) "=:".toList =
      some ((TrimSpace k ++ b).length + 1) := by
    rw [hl2, IndexAny_append _ _ _ '=' _ (by decide)]
    · simp only [List.length_append, List.length_cons, List.length_nil]
    · intro c hc hmem
      have hcc : c = '=' ∨ c = ':' := by simpa using hmem
      have hck : c ∈ k ∨ c = ' ' := by
        rcases List.mem_append.1 hc with hc | hc
        · rcases List.mem_append.1 hc with hc | hc
          · exact Or.inl (mem_TrimSpace k c hc)
          · exact Or.inl (hbk c hc)
        · exact Or.inr (by simpa using hc)
      rcases hck with hck | hck
      · rcases hcc with e | e
        · exact hksep.1 (e ▸ hck)
        · exact hksep.2 (e ▸ hck)
      · rcases hcc with e | e <;> rw [hck] at e <;> revert e <;> decide
  rw [readLine_option st _ _ hne hc hh hs hi]
  have hname : TrimSpace (slice (TrimSpace (k ++ " = ".toList ++ v)) 0
      ((TrimSpace k ++ b).length + 1)) = TrimSpace k := by
    rw [hl2]
    have e : slice ((TrimSpace k ++ b ++ [' ']) ++ '=' :: w) 0 ((TrimSpace k ++ b).length + 1) =
        TrimSpace k ++ b ++ [' '] := by
      unfold slice
      rw [List.drop_zero, Nat.sub_zero,
        List.take_left' (by simp only [List.length_append, List.length_cons, List.length_nil])]
    rw [e]
    have hbb : blank (b ++ [' ']) := by
      apply blank_append _ _ hb
      intro c hc
      have : c = ' ' := by simpa using hc
      rw [this]
      decide
    have := TrimSpace_of_tight [] (TrimSpace k) (b ++ [' ']) (by intro c hc; cases hc) hbb
      (tight_TrimSpace k)
    simpa using this
  have hval : TrimSpace (stripComments ((TrimSpace (k ++ " = ".toList ++ v)).drop
      ((TrimSpace k ++ b).length + 1 + 1))) = TrimSpace v := by
    rw [hl2]
    have e : ((TrimSpace k ++ b ++ [' ']) ++ '=' :: w).drop ((TrimSpace k ++ b).length + 1 + 1) =
        w := by
      rw [show (TrimSpace k ++ b ++ [' ']) ++ '=' :: w = (TrimSpace k ++ b ++ [' ', '=']) ++ w
        from by simp,
        List.drop_left' (by simp only [List.length_append, List.length_cons, List.length_nil])]
    rw [e]
    have hfree : stripComments w = w := by
      apply stripComments_of_free
      · rw [hw]
        exact cutAt_space_cons ' ' ';' v (Or.inl rfl) hvm.1 hv1 n
      · rw [hw]
        exact cutAt_space_cons '\t' ';' v (Or.inl rfl) hvm.2.1 hv1 n
      · rw [hw]
        exact cutAt_space_cons ' ' '#' v (Or.inr rfl) hvm.2.2.1 hv1 n
      · rw [hw]
        exact cutAt_space_cons '\t' '#' v (Or.inr rfl) hvm.2.2.2 hv1 n
    rw [hfree, htw]
  rw [hname, hval]

/-! ## Lemmas on `Atoi` -/

theorem digitChar_toNat (d : Nat) (h : d < 10) : (Char.ofNat (48 + d)).toNat = 48 + d := by
  interval_cases d <;> rfl

theorem parseDigits_map (l : List Nat) (hl : ∀ d ∈ l, d < 10) (acc : Nat) :
    parseDigits (l.map (fun d => Char.ofNat (48 + d))) acc =
      some (l.foldl (fun a d => a * 10 + d) acc) := by
  induction l generalizing acc with
  | nil => rfl
  | cons d l ih =>
    have hd : d < 10 := hl d (List.mem_cons_self _ _)
    have hl2 : ∀ x ∈ l, x < 10 := fun x hx => hl x (List.mem_cons_of_mem _ hx)
    simp only [List.map_cons, parseDigits, digitChar_toNat d hd, List.foldl_cons]
    have : 48 ≤ 48 + d ∧ 48 + d ≤ 57 := by omega
    simp only [this, and_self, if_true, Nat.add_sub_cancel_left]
    exact ih hl2 _

theorem foldl_reverse_ofDigits (L : List Nat) :
    (L.reverse).foldl (fun a d => a * 10 + d) 0 = Nat.ofDigits 10 L := by
  induction L with
  | nil => rfl
  | cons d L ih =>
    rw [List.reverse_cons, List.foldl_append, ih, Nat.ofDigits_cons]
    simp only [List.foldl_cons, List.foldl_nil]
    omega

theorem parseDigits_decimal (n : Nat) : parseDigits (decimal n) 0 = some n := by
  unfold decimal
  rw [parseDigits_map _ (by
    intro d hd
    exact Nat.digits_lt_base (by norm_num) (List.mem_reverse.1 hd)), foldl_reverse_ofDigits,
    Nat.ofDigits_digits]

theorem decimal_head (n : Nat) (h : 0 < n) :
    ∃ d rest, d < 10 ∧ decimal n = Char.ofNat (48 + d) :: rest := by
  unfold decimal
  have hne : (Nat.digits 10 n).reverse ≠ [] := by
    intro e
    have := List.reverse_eq_nil_iff.1 e
    exact (Nat.digits_ne_nil_iff_ne_zero.2 (by omega)) this
  cases hr : (Nat.digits 10 n).reverse with
  | nil => exact absurd hr hne
  | cons d rest =>
    refine ⟨d, rest.map (fun d => Char.ofNat (48 + d)), ?_, rfl⟩
    have hmem : d ∈ (Nat.digits 10 n).reverse := by rw [hr]; exact List.mem_cons_self _ _
    exact Nat.digits_lt_base (by norm_num) (List.mem_reverse.1 hmem)

theorem digitChar_not_sign (d : Nat) (h : d < 10) :
    Char.ofNat (48 + d) ≠ '-' ∧ Char.ofNat (48 + d) ≠ '+' := by
  interval_cases d <;> decide

/-- The decimal literal of a positive integer below `2 ^ 63` is read back by `Atoi`. -/
theorem Atoi_decimal (n : Nat) (h0 : 0 < n) (h : n < 2 ^ 63) :
    Atoi (decimal n) = ((n : Int), true) := by
  obtain ⟨d, rest, hd, he⟩ := decimal_head n h0
  obtain ⟨h1, h2⟩ := digitChar_not_sign d hd
  have hp := parseDigits_decimal n
  unfold Atoi
  rw [he] at hp ⊢
  simp only [List.head?_cons, Option.some.injEq, h1, h2, or_self, if_false, hp, h,
    reduceCtorEq, if_true]

/-- The decimal literal of a positive integer up to `2 ^ 63`, after a minus sign, is read
back by `Atoi` as its opposite. -/
theorem Atoi_neg_decimal (n : Nat) (h0 : 0 < n) (h : n ≤ 2 ^ 63) :
    Atoi ('-' :: decimal n) = (-(n : Int), true) := by
  obtain ⟨d, rest, hd, he⟩ := decimal_head n h0
  have hp := parseDigits_decimal n
  unfold Atoi
  rw [he] at hp ⊢
  simp only [List.head?_cons, true_or, if_true, List.drop_succ_cons, List.drop_zero, hp, h,
    reduceCtorEq, if_false]

/-! ## Lemmas on the end of the text and on a separator at the start of a line -/

theorem joinLines_append_empty (ls : List Str) (h : ls ≠ []) :
    joinLines (ls ++ [[]]) = joinLines ls ++ ['\n'] := by
  induction ls with
  | nil => exact absurd rfl h
  | cons l ls ih =>
    cases ls with
    | nil => simp [joinLines]
    | cons l2 ls =>
      have ih2 := ih (by simp)
      rw [List.cons_append] at ih2
      show l ++ '\n' :: joinLines (l2 :: (ls ++ [[]])) =
        (l ++ '\n' :: joinLines (l2 :: ls)) ++ ['\n']
      rw [ih2]
      simp

theorem readLine_empty (st : ReadState) : readLine st [] = .ok st := by
  unfold readLine
  simp [TrimSpace]

theorem IndexAny_zero (l chars : Str) (h : IndexAny l chars = some 0) :
    ∃ c cs, l = c :: cs ∧ c ∈ chars := by
  cases l with
  | nil => simp [IndexAny] at h
  | cons c cs =>
    rw [IndexAny_cons] at h
    by_cases hc : chars.contains c = true
    · exact ⟨c, cs, rfl, by simpa using hc⟩
    · simp only [hc, Bool.false_eq_true, if_false] at h
      cases hi : IndexAny cs chars with
      | none => simp [hi] at h
      | some j => simp [hi] at h

/-- A pass of the loop on a line that starts with a separator: neither a comment, nor a
header, nor an option line. -/
theorem readLine_separator_first (st : ReadState) (raw : Str) (hs : st.sect ≠ [])
    (hi : IndexAny (TrimSpace raw) "=:".toList = some 0) :
    readLine st raw =
      if st.sect ≠ [] ∧ st.option ≠ [] then
        .ok ⟨AddOption st.c st.sect st.option
              ((match GetRawString st.c st.sect st.option with
                | .ok v => v
                | .error _ => []) ++ "\n".toList ++ TrimSpace (stripComments (TrimSpace raw))),
            st.sect, st.option⟩
      else .error ⟨.CouldNotParse, TrimSpace raw⟩ := by
  obtain ⟨c, cs, hl, hc⟩ := IndexAny_zero _ _ hi
  have hcc : c = '=' ∨ c = ':' := by simpa using hc
  have h0 : ¬ (TrimSpace raw).length = 0 := by rw [hl]; simp
  have h1 : (TrimSpace raw).head? ≠ some '#' := by
    rw [hl]
    rcases hcc with e | e <;> subst e <;> simp
  have h2 : (TrimSpace raw).head? ≠ some ';' := by
    rw [hl]
    rcases hcc with e | e <;> subst e <;> simp
  have h3 : ¬ ((TrimSpace raw).length ≥ 3 ∧
      ToLower (slice (TrimSpace raw) 0 3) = "rem".toList) := by
    rintro ⟨_, h⟩
    rw [hl] at h
    simp only [slice, List.drop_zero, Nat.sub_zero, List.take_succ_cons, ToLower,
      List.map_cons] at h
    have : "rem".toList = 'r' :: 'e' :: 'm' :: [] := rfl
    rw [this] at h
    injection h with h _
    rcases hcc with e | e <;> subst e <;> revert h <;> decide
  have h4 : ¬ ((TrimSpace raw).head? = some '[' ∧ (TrimSpace raw).getLast? = some ']') := by
    rintro ⟨h, _⟩
    rw [hl] at h
    rcases hcc with e | e <;> subst e <;> simp at h
  unfold readLine
  simp only [h0, h1, h2, h3, h4, hs, if_false, hi]

/-! ## Lemmas on the earliest comment marker -/

theorem optMin_map_succ (a b : Option Nat) :
    optMin (a.map (· + 1)) (b.map (· + 1)) = (optMin a b).map (· + 1) := by
  cases a with
  | none => cases b <;> rfl
  | some x =>
    cases b with
    | none => rfl
    | some y =>
      simp only [Option.map_some', optMin, Option.some.injEq]
      omega

theorem optMin_zero_left (b : Option Nat) : optMin (some 0) b = some 0 := by
  cases b <;> simp [optMin]

theorem optMin_zero_right (a : Option Nat) : optMin a (some 0) = some 0 := by
  cases a <;> simp [optMin]

theorem Index_two (a b c : Char) (cs : Str) :
    Index (c :: cs) [a, b] =
      if a = c ∧ cs.head? = some b then some 0 else (Index cs [a, b]).map (· + 1) := by
  rw [Index_cons, hasPrefix_two]
  by_cases h : a = c ∧ cs.head? = some b
  · simp [h]
  · have : (a == c && (cs.head? == some b)) = false := by
      rw [Bool.eq_false_iff]
      intro e
      simp only [Bool.and_eq_true, beq_iff_eq] at e
      exact h e
    simp only [this, h, if_false, Bool.false_eq_true]

theorem Index_two_lt (a b : Char) (x : Str) (i : Nat) (h : Index x [a, b] = some i) :
    i < x.length := by
  induction x generalizing i with
  | nil => simp [Index, hasPrefix] at h
  | cons c cs ih =>
    rw [Index_two] at h
    by_cases hc : a = c ∧ cs.head? = some b
    · simp only [hc, and_self, if_true, Option.some.injEq] at h
      rw [← h]
      simp
    · simp only [hc, if_false] at h
      cases hi : Index cs [a, b] with
      | none => simp [hi] at h
      | some j =>
        simp only [hi, Option.map_some', Option.some.injEq] at h
        have := ih j hi
        rw [← h, List.length_cons]
        omega

theorem Index_none_of_cutAt (a b : Char) (x : Str) (h : cutAt x [a, b] = x) :
    Index x [a, b] = none := by
  cases hi : Index x [a, b] with
  | none => rfl
  | some i =>
    exfalso
    have hlt := Index_two_lt a b x i hi
    unfold cutAt at h
    rw [hi] at h
    have hlen := congrArg List.length h
    simp only [slice, List.drop_zero, Nat.sub_zero, List.length_take] at hlen
    omega

theorem earliestMarker_cons (c : Char) (y : Str) :
    earliestMarker (c :: y) =
      if (c = ' ' ∨ c = '\t') ∧ (y.head? = some ';' ∨ y.head? = some '#') then some 0
      else (earliestMarker y).map (· + 1) := by
  unfold earliestMarker
  rw [show "\t#".toList = ['\t', '#'] from rfl, show " #".toList = [' ', '#'] from rfl,
    show "\t;".toList = ['\t', ';'] from rfl, show " ;".toList = [' ', ';'] from rfl]
  rw [Index_two, Index_two, Index_two, Index_two]
  by_cases h1 : ' ' = c
  · subst h1
    have h2 : ¬ '\t' = ' ' := by decide
    by_cases h3 : y.head? = some ';'
    · simp [h3, optMin_zero_left]
    · by_cases h4 : y.head? = some '#'
      · simp [h4, h2, optMin_zero_left, optMin_zero_right]
      · simp [h2, h3, h4, optMin_map_succ]
  · by_cases h2 : '\t' = c
    · subst h2
      have h1' : ¬ ' ' = '\t' := by decide
      by_cases h3 : y.head? = some ';'
      · simp [h3, h1', optMin_zero_left, optMin_zero_right]
      · by_cases h4 : y.head? = some '#'
        · simp [h4, h1', optMin_zero_left, optMin_zero_right]
        · simp [h1', h3, h4, optMin_map_succ]
    · have h1' : ¬ c = ' ' := fun e => h1 e.symm
      have h2' : ¬ c = '\t' := fun e => h2 e.symm
      simp [h1, h2, h1', h2', optMin_map_succ]

/-- The cut at the first comment start is the cut at the earliest occurrence of one of
the four markers. -/
theorem cutComment_eq_earliest (l : Str) :
    cutComment l =
      match earliestMarker l with
      | some i => l.take i
      | none => l := by
  induction l with
  | nil =>
    have : earliestMarker [] = none := by decide
    rw [this]
    rfl
  | cons c y ih =>
    rw [cutComment_cons, earliestMarker_cons]
    by_cases h : (c = ' ' ∨ c = '\t') ∧ (y.head? = some ';' ∨ y.head? = some '#')
    · rw [if_pos h, if_pos h]
      rfl
    · rw [if_neg h, if_neg h, ih]
      cases earliestMarker y with
      | none => rfl
      | some i => rfl

/-- The result of `stripComments` holds no occurrence of any of the four markers. -/
theorem stripComments_free (l : Str) :
    cutAt (stripComments l) " ;".toList = stripComments l ∧
    cutAt (stripComments l) "\t;".toList = stripComments l ∧
    cutAt (stripComments l) " #".toList = stripComments l ∧
    cutAt (stripComments l) "\t#".toList = stripComments l := by
  rw [stripComments_eq]
  rw [show "\t#".toList = ['\t', '#'] from rfl, show " #".toList = [' ', '#'] from rfl,
    show "\t;".toList = ['\t', ';'] from rfl, show " ;".toList = [' ', ';'] from rfl]
  exact ⟨cutAt_cutAt_other _ _ _ _ _ (cutAt_cutAt_other _ _ _ _ _
      (cutAt_cutAt_other _ _ _ _ _ (cutAt_cutAt_same _ _ _))),
    cutAt_cutAt_other _ _ _ _ _ (cutAt_cutAt_other _ _ _ _ _ (cutAt_cutAt_same _ _ _)),
    cutAt_cutAt_other _ _ _ _ _ (cutAt_cutAt_same _ _ _),
    cutAt_cutAt_same _ _ _⟩

/-! ## Lemmas on the bounds that the loop of `GetString` takes from the match -/

theorem isIdent_toNat (x : Char) (h : isIdent x = true) : 45 ≤ x.toNat ∧ x.toNat ≤ 122 := by
  unfold isIdent Char.isAlphanum Char.isAlpha Char.isUpper Char.isLower Char.isDigit at h
  simp only [Bool.or_eq_true, Bool.and_eq_true, decide_eq_true_eq, beq_iff_eq] at h
  have key : ∀ a b : UInt32, a ≤ b → a.toNat ≤ b.toNat := fun _ _ hab => hab
  have hx : x.toNat = x.val.toNat := rfl
  rcases h with ((((⟨h1, h2⟩ | ⟨h1, h2⟩) | ⟨h1, h2⟩) | h) | h) | h
  all_goals first
    | (subst h; decide)
    | (have a1 := key _ _ h1
       have a2 := key _ _ h2
       have e1 : (65 : UInt32).toNat = 65 := rfl
       have e2 : (90 : UInt32).toNat = 90 := rfl
       have e3 : (97 : UInt32).toNat = 97 := rfl
       have e4 : (122 : UInt32).toNat = 122 := rfl
       have e5 : (48 : UInt32).toNat = 48 := rfl
       have e6 : (57 : UInt32).toNat = 57 := rfl
       rw [hx]
       omega)

theorem utf8Len_pos (c : Char) : 0 < utf8Len c := by
  unfold utf8Len
  split_ifs <;> omega

theorem len_eq_zero (s : Str) : len s = 0 ↔ s = [] := by
  cases s with
  | nil => simp [len]
  | cons c cs =>
    have := utf8Len_pos c
    simp only [len, reduceCtorEq, iff_false]
    omega

/-- A turn of the loop panics when the bytes of the match that it takes as bounds do not
delimit a slice of the value. -/
theorem GetStringLoop_slice_panics (c : ConfigFile) (sect option value vr : Str)
    (n lo hi : Nat) (hvr : FindString value = vr) (hne : vr ≠ [])
    (hlo : byteAt vr 2 = some lo) (hhi : byteAt vr 3 = some hi)
    (h : hi < lo ∨ len value < hi) :
    GetStringLoop c sect option (n + 1) value = .panics .sliceBounds := by
  have h0 : len vr ≠ 0 := fun e => hne ((len_eq_zero vr).1 e)
  have hs : sliceBytes value lo hi = .panics .sliceBounds := by
    unfold sliceBytes
    rw [if_pos]
    omega
  rw [GetStringLoop]
  simp only [hvr, h0, if_false, indexByte, hlo, hhi, Run.bind, hs]

theorem GetString_slice_panics (c : ConfigFile) (s o raw vr : Str) (n lo hi : Nat)
    (hraw : GetRawString c s o = .ok raw) (hvr : FindString raw = vr) (hne : vr ≠ [])
    (hlo : byteAt vr 2 = some lo) (hhi : byteAt vr 3 = some hi)
    (h : hi < lo ∨ len raw < hi) :
    GetString (n + 1) c s o = .panics .sliceBounds := by
  unfold GetString
  rw [hraw]
  exact GetStringLoop_slice_panics c _ o raw vr n lo hi hvr hne hlo hhi h

theorem isIdent_rparen : isIdent ')' = false := by decide

theorem identRun_cons (c : Char) (cs : Str) :
    identRun (c :: cs) =
      if c = ')' then (if cs.head? = some 's' then some 0 else none)
      else if isIdent c then (identRun cs).map (· + 1)
      else none := rfl

theorem identRun_name (name post : Str) (h : ∀ x ∈ name, isIdent x = true) :
    identRun (name ++ ')' :: 's' :: post) = some name.length := by
  induction name with
  | nil => simp [identRun]
  | cons c cs ih =>
    have hc : isIdent c = true := h c (List.mem_cons_self _ _)
    have hne : c ≠ ')' := by
      intro e
      rw [e, isIdent_rparen] at hc
      cases hc
    have hcs : ∀ x ∈ cs, isIdent x = true := fun x hx => h x (List.mem_cons_of_mem _ hx)
    rw [List.cons_append, identRun_cons, ih hcs]
    simp only [hne, if_false, hc, if_true, Option.map_some', List.length_cons]

theorem matchHere_name (name post : Str) (hne : name ≠ [])
    (h : ∀ x ∈ name, isIdent x = true) :
    matchHere ('%' :: '(' :: (name ++ ')' :: 's' :: post)) = some name.length := by
  show nameLength (identRun (name ++ ')' :: 's' :: post)) = _
  rw [identRun_name name post h]
  cases name with
  | nil => exact absurd rfl hne
  | cons c cs => rfl

/-- On a text that starts with a placeholder, `FindString` returns that placeholder. -/
theorem FindString_name (name post : Str) (hne : name ≠ [])
    (h : ∀ x ∈ name, isIdent x = true) :
    FindString ('%' :: '(' :: (name ++ ')' :: 's' :: post)) =
      '%' :: '(' :: (name ++ ')' :: 's' :: []) := by
  unfold FindString
  rw [matchHere_name name post hne h]
  simp only [List.take_succ_cons]
  congr 2
  have e : name ++ ')' :: 's' :: post = (name ++ ')' :: 's' :: []) ++ post := by simp
  rw [e, List.take_left' (by simp)]

theorem utf8Bytes_ident (x : Char) (h : isIdent x = true) : utf8Bytes x = [x.toNat] := by
  have := isIdent_toNat x h
  unfold utf8Bytes
  simp only
  rw [if_pos (by omega)]

theorem utf8Len_ident (x : Char) (h : isIdent x = true) : utf8Len x = 1 := by
  have := isIdent_toNat x h
  unfold utf8Len
  rw [if_pos (by omega)]

theorem len_ident (name : Str) (h : ∀ x ∈ name, isIdent x = true) :
    len name = name.length := by
  induction name with
  | nil => rfl
  | cons c cs ih =>
    rw [len, utf8Len_ident c (h c (List.mem_cons_self _ _)),
      ih (fun x hx => h x (List.mem_cons_of_mem _ hx)), List.length_cons]
    omega

theorem len_append (a b : Str) : len (a ++ b) = len a + len b := by
  induction a with
  | nil => simp [len]
  | cons c cs ih =>
    rw [List.cons_append, len, len, ih]
    omega

/-- A value that is one placeholder, with a name of 40 bytes at most: the loop takes the
first two bytes after `%(` as bounds, and they delimit no slice of the value. -/
theorem GetStringLoop_reference_panics (c : ConfigFile) (sect option name : Str) (n : Nat)
    (hne : name ≠ []) (h : ∀ x ∈ name, isIdent x = true) (hlen : name.length ≤ 40) :
    GetStringLoop c sect option (n + 1) ("%(".toList ++ name ++ ")s".toList) =
      .panics .sliceBounds := by
  have e : "%(".toList ++ name ++ ")s".toList = '%' :: '(' :: (name ++ ')' :: 's' :: []) := by
    show '%' :: '(' :: [] ++ name ++ ')' :: 's' :: [] = _
    simp
  have hl : len ('%' :: '(' :: (name ++ ')' :: 's' :: [])) = name.length + 4 := by
    have e2 : '%' :: '(' :: (name ++ ')' :: 's' :: []) =
        ('%' :: '(' :: []) ++ (name ++ (')' :: 's' :: [])) := rfl
    rw [e2, len_append, len_append, len_ident name h]
    have h1 : len ('%' :: '(' :: []) = 2 := by decide
    have h2 : len (')' :: 's' :: []) = 2 := by decide
    omega
  have p1 : utf8Bytes '%' = [37] := by decide
  have p2 : utf8Bytes '(' = [40] := by decide
  have p3 : utf8Bytes ')' = [41] := by decide
  rw [e]
  cases name with
  | nil => exact absurd rfl hne
  | cons x r =>
    have hx := h x (List.mem_cons_self _ _)
    have bx := isIdent_toNat x hx
    have ux := utf8Bytes_ident x hx
    cases r with
    | nil =>
      apply GetStringLoop_slice_panics c sect option _ _ n x.toNat 41
        (FindString_name [x] [] (by simp) h) (by simp)
      · simp only [byteAt, List.flatMap_cons, List.cons_append, List.nil_append, ux, p1, p2,
          List.singleton_append]
        rfl
      · simp only [byteAt, List.flatMap_cons, List.cons_append, List.nil_append, ux, p1, p2, p3,
          List.singleton_append]
        rfl
      · left; omega
    | cons y r2 =>
      have hy := h y (List.mem_cons_of_mem _ (List.mem_cons_self _ _))
      have b_y := isIdent_toNat y hy
      have uy := utf8Bytes_ident y hy
      apply GetStringLoop_slice_panics c sect option _ _ n x.toNat y.toNat
        (FindString_name (x :: y :: r2) [] (by simp) h) (by simp)
      · simp only [byteAt, List.flatMap_cons, List.cons_append, ux, p1, p2,
          List.singleton_append]
        rfl
      · simp only [byteAt, List.flatMap_cons, List.cons_append, ux, uy, p1, p2,
          List.singleton_append]
        rfl
      · right
        rw [hl]
        simp only [List.length_cons] at hlen ⊢
        omega

theorem matchHere_of_head_ne (c : Char) (cs : Str) (h : c ≠ '%') :
    matchHere (c :: cs) = none := by
  unfold matchHere
  split
  · rename_i heq
    injection heq with h1 _
    exact absurd h1 h
  · rfl

/-- A text without `%` holds no placeholder. -/
theorem FindString_no_percent (v : Str) (h : '%' ∉ v) : FindString v = [] := by
  induction v with
  | nil => rfl
  | cons c cs ih =>
    have hc : c ≠ '%' := fun e => h (by rw [e]; exact List.mem_cons_self _ _)
    have hcs : '%' ∉ cs := fun e => h (List.mem_cons_of_mem _ e)
    unfold FindString
    rw [matchHere_of_head_ne c cs hc]
    exact ih hcs

/-- The run of identifier characters stops at a character that is neither one of them nor
`)`: there is no name. -/
theorem identRun_not_name (b rest : Str) (hx : ∃ x ∈ b, isIdent x = false) (hr : ')' ∉ b) :
    identRun (b ++ rest) = none := by
  induction b with
  | nil =>
    obtain ⟨x, hx, _⟩ := hx
    cases hx
  | cons c cs ih =>
    have hc : c ≠ ')' := fun e => hr (by rw [e]; exact List.mem_cons_self _ _)
    have hcs : ')' ∉ cs := fun e => hr (List.mem_cons_of_mem _ e)
    rw [List.cons_append, identRun_cons, if_neg hc]
    cases hi : isIdent c with
    | false => simp
    | true =>
      obtain ⟨x, hx, hxi⟩ := hx
      rcases List.mem_cons.1 hx with e | hmem
      · rw [e, hi] at hxi
        cases hxi
      · rw [ih ⟨x, hmem, hxi⟩ hcs]
        simp

/-- The text `%(b)s` holds no placeholder when `b` holds a character outside the class of
the pattern and neither `%` nor `)`. -/
theorem FindString_not_reference (b : Str) (hx : ∃ x ∈ b, isIdent x = false)
    (hp : '%' ∉ b) (hr : ')' ∉ b) :
    FindString ("%(".toList ++ b ++ ")s".toList) = [] := by
  have e : "%(".toList ++ b ++ ")s".toList = '%' :: '(' :: (b ++ ')' :: 's' :: []) := by
    show '%' :: '(' :: [] ++ b ++ ')' :: 's' :: [] = _
    simp
  have hm : matchHere ('%' :: '(' :: (b ++ ')' :: 's' :: [])) = none := by
    show nameLength (identRun (b ++ ')' :: 's' :: [])) = none
    rw [identRun_not_name b _ hx hr]
    rfl
  rw [e]
  unfold FindString
  rw [hm]
  apply FindString_no_percent
  intro hmem
  rcases List.mem_cons.1 hmem with h1 | h1
  · exact absurd h1 (by decide)
  · rcases List.mem_append.1 h1 with h2 | h2
    · exact hp h2
    · revert h2
      decide

/-- On a value without a placeholder the loop stops at once and returns the value. -/
theorem GetStringLoop_done (c : ConfigFile) (sect option value : Str) (n : Nat)
    (h : FindString value = []) :
    GetStringLoop c sect option (n + 1) value = .returns (.ok value) := by
  rw [GetStringLoop]
  simp only [h, len, if_true]

/-! ## Theorems -/

/-- C1, a defect of `GetString`: `FindString` returns the text of the match, and the loop
takes bytes 2 and 3 of that text as the bounds of the name in the value. For the match
`%(host)s` these are `h` = 104 and `o` = 111, so `GetString("web", "url")` panics on the
slice `value[104:111]` whenever the leftmost placeholder of the raw value of `url` is
`%(host)s` and that value is shorter than 111 bytes. On the store read from
`host = example.com`, `[web]`, `url = http://%(host)s/` the value has 16 bytes: the call
panics, and does not return `http://example.com/`. -/
theorem C1_host_reference_panics :
    (∀ (DepthValues : Nat) (c : ConfigFile) (raw : Str),
      GetRawString c "web".toList "url".toList = .ok raw →
      FindString raw = "%(host)s".toList → len raw < 111 → 0 < DepthValues →
        GetString DepthValues c "web".toList "url".toList = .panics .sliceBounds) ∧
    Read NewConfigFile "host = example.com\n[web]\nurl = http://%(host)s/".toList =
      .ok hostStore ∧
    GetRawString hostStore "web".toList "url".toList = .ok "http://%(host)s/".toList ∧
    FindString "http://%(host)s/".toList = "%(host)s".toList ∧
    byteAt "%(host)s".toList 2 = some 104 ∧
    byteAt "%(host)s".toList 3 = some 111 ∧
    len "http://%(host)s/".toList = 16 ∧
    GetString 200 hostStore "web".toList "url".toList = .panics .sliceBounds := by
  refine ⟨?_, by decide, by decide, by decide, by decide, by decide, by decide, by decide⟩
  intro D c raw hraw hvr hlen hD
  obtain ⟨n, rfl⟩ : ∃ n, D = n + 1 := ⟨D - 1, by omega⟩
  exact GetString_slice_panics c _ _ raw _ n 104 111 hraw hvr (by decide) (by decide)
    (by decide) (Or.inr hlen)

/-- C2, as amended: when option `a` of section `s` has raw value exactly `%(b)s`, where
`b` is `a` itself (self-reference) or the name of another option (mutual reference), and
`b` holds a character outside the class of the placeholder pattern and neither `%` nor
`)`, the value holds no placeholder: for `DepthValues` above 0, `GetString(s, a)` returns
it unchanged with no error. -/
theorem C2_not_a_reference (DepthValues : Nat) (c : ConfigFile) (s a b : Str)
    (hraw : GetRawString c s a = .ok ("%(".toList ++ b ++ ")s".toList))
    (hx : ∃ x ∈ b, isIdent x = false) (hp : '%' ∉ b) (hr : ')' ∉ b)
    (hD : 0 < DepthValues) :
    FindString ("%(".toList ++ b ++ ")s".toList) = [] ∧
    GetString DepthValues c s a = .returns (.ok ("%(".toList ++ b ++ ")s".toList)) := by
  obtain ⟨n, rfl⟩ : ∃ n, DepthValues = n + 1 := ⟨DepthValues - 1, by omega⟩
  have hf := FindString_not_reference b hx hp hr
  refine ⟨hf, ?_⟩
  unfold GetString
  rw [hraw]
  exact GetStringLoop_done c _ a _ n hf

/-- Witness of C2: in the store read from `[s]`, `u v = %(w z)s`, `w z = %(u v)s` the
values of `u v` and `w z` name each other, and `GetString("s", "u v")` returns
`%(w z)s`. -/
theorem C2_not_a_reference_witness :
    Read NewConfigFile "[s]\nu v = %(w z)s\nw z = %(u v)s".toList = .ok mutualStore ∧
    GetString 200 mutualStore "s".toList "u v".toList = .returns (.ok "%(w z)s".toList) :=
  ⟨by decide,
    (C2_not_a_reference 200 mutualStore "s".toList "u v".toList "w z".toList (by decide)
      ⟨' ', by decide, by decide⟩ (by decide) (by decide) (by decide)).2⟩

/-- C2 fails as stated: in the store read from `[s]`, `x y = %(x y)s` option `x y` of
section `s` has raw value exactly `%(x y)s`, and `GetString("s", "x y")` returns that
value with no error, not an error of kind `MaxDepthReached`. -/
theorem C2_counterexample_not_a_reference :
    Read NewConfigFile "[s]\nx y = %(x y)s".toList = .ok spacedStore ∧
    GetRawString spacedStore "s".toList "x y".toList = .ok "%(x y)s".toList ∧
    GetString 200 spacedStore "s".toList "x y".toList = .returns (.ok "%(x y)s".toList) := by
  decide

/-- C3, as amended: for single-line `s`, `k` and `v`, where `s` and `k` are not empty
once trimmed, `k` holds no `=` and no `:`, the trimmed `k` does not start with `#`, `;`,
`[` or `rem` in any letter case, and `v` holds none of the four comment markers and
does not start with `;` or `#`, reading the text `[s]`, `k = v` succeeds and
`GetRawString` on the trimmed `s` and `k` returns the trimmed `v` with no error. -/
theorem C3_header_option_roundtrip (c : ConfigFile) (s k v : Str)
    (hs : '\n' ∉ s) (hk : '\n' ∉ k) (hv : '\n' ∉ v)
    (hs0 : TrimSpace s ≠ [])
    (hk0 : TrimSpace k ≠ [])
    (hksep : '=' ∉ k ∧ ':' ∉ k)
    (hkc : isCommentLine (TrimSpace k) = false)
    (hkh : (TrimSpace k).head? ≠ some '[')
    (hvm : Index v " ;".toList = none ∧ Index v "\t;".toList = none ∧
      Index v " #".toList = none ∧ Index v "\t#".toList = none)
    (hv1 : v.head? ≠ some ';' ∧ v.head? ≠ some '#') :
    ∃ c1, Read c ("[".toList ++ s ++ "]\n".toList ++ k ++ " = ".toList ++ v) = .ok c1 ∧
      GetRawString c1 (TrimSpace s) (TrimSpace k) = .ok (TrimSpace v) := by
  have e : "[".toList ++ s ++ "]\n".toList ++ k ++ " = ".toList ++ v =
      joinLines ['[' :: (s ++ [']']), k ++ " = ".toList ++ v] := by
    rw [show "[".toList = ['['] from rfl, show "]\n".toList = [']', '\n'] from rfl]
    simp [joinLines]
  have hnl : ∀ l ∈ ['[' :: (s ++ [']']), k ++ " = ".toList ++ v], '\n' ∉ l := by
    intro l hl
    rcases List.mem_cons.1 hl with hl | hl
    · rw [hl]
      intro hmem
      rcases List.mem_cons.1 hmem with h | h
      · revert h; decide
      · rcases List.mem_append.1 h with h | h
        · exact hs h
        · simp at h
    · have hl2 : l = k ++ " = ".toList ++ v := by simpa using hl
      rw [hl2]
      intro hmem
      rcases List.mem_append.1 hmem with h | h
      · rcases List.mem_append.1 h with h | h
        · exact hk h
        · revert h; decide
      · exact hv h
  rw [e, Read_joinLines _ _ hnl]
  simp only [readLoop, readLine_header]
  rw [readLine_assignment ⟨AddSection c (TrimSpace s), TrimSpace s, []⟩ k v hs0 hk0 hksep hkc
    hkh hvm hv1]
  exact ⟨_, rfl, GetRawString_AddOption _ _ _ _⟩

/-- Witness of C3: the text `[ Web ]`, ` Key =  some value `. -/
theorem C3_header_option_roundtrip_witness :
    ∃ c1, Read NewConfigFile
        ("[".toList ++ " Web ".toList ++ "]\n".toList ++ " Key".toList ++ " = ".toList ++
          " some value ".toList) = .ok c1 ∧
      GetRawString c1 (TrimSpace " Web ".toList) (TrimSpace " Key".toList) =
        .ok (TrimSpace " some value ".toList) :=
  C3_header_option_roundtrip NewConfigFile " Web ".toList " Key".toList " some value ".toList
    (by decide) (by decide) (by decide) (by decide) (by decide) (by decide) (by decide)
    (by decide) (by decide) (by decide)

/-- C3 fails as stated: with `v = ;x`, which holds none of the four markers, the text
`[s]`, `k = ;x` is read with the empty raw value for `(s, k)`, not `;x`; with the empty
section name the text `[]`, `k = v` is refused with `BlankSection`; and with the name
`k ` carrying a trailing blank the text `[s]`, `k  = v` is read, but `GetRawString` on
`s` and `k ` fails with `OptionNotFound`, the option being stored as `k`. -/
theorem C3_counterexample_leading_marker :
    (Index ";x".toList " ;".toList = none ∧ Index ";x".toList "\t;".toList = none ∧
      Index ";x".toList " #".toList = none ∧ Index ";x".toList "\t#".toList = none) ∧
    Read NewConfigFile ("[".toList ++ "s".toList ++ "]\n".toList ++ "k".toList ++
        " = ".toList ++ ";x".toList) =
      .ok ⟨[("default".toList, []), ("s".toList, [("k".toList, [])])]⟩ ∧
    GetRawString ⟨[("default".toList, []), ("s".toList, [("k".toList, [])])]⟩
      "s".toList "k".toList = .ok [] ∧
    TrimSpace ";x".toList = ";x".toList ∧
    Read NewConfigFile ("[".toList ++ [] ++ "]\n".toList ++ "k".toList ++
        " = ".toList ++ "v".toList) = .error ⟨.BlankSection, "k = v".toList⟩ ∧
    Read NewConfigFile ("[".toList ++ "s".toList ++ "]\n".toList ++ "k ".toList ++
        " = ".toList ++ "v".toList) =
      .ok ⟨[("default".toList, []), ("s".toList, [("k".toList, "v".toList)])]⟩ ∧
    GetRawString ⟨[("default".toList, []), ("s".toList, [("k".toList, "v".toList)])]⟩
      "s".toList "k ".toList =
      .error ⟨.OptionNotFound, [], [], "s".toList, "k ".toList⟩ := by
  decide

/-- C4: when a pass of `Read` in a current section `s` takes an option line, which
stores a raw value `v'` under its name `k`, and the next line `m` is not empty once
trimmed, holds no `=` and no `:`, and is neither a full-line comment nor a section
header, the pass on `m` succeeds and the raw value of `(s, k)` becomes
`v' ++ "\n" ++ m'`, where `m'` is the trimmed `m` cut at its first inline comment and
trimmed again; the text `[s]`, `k = v`, ` more` yields the raw value `v\nmore`. -/
theorem C4_continuation_line (st : ReadState) (raw m : Str) (i : Nat)
    (hs : st.sect ≠ [])
    (hne : TrimSpace raw ≠ [])
    (hc : isCommentLine (TrimSpace raw) = false)
    (hh : isHeaderLine (TrimSpace raw) = false)
    (hi : IndexAny (TrimSpace raw) "=:".toList = some (i + 1))
    (hm0 : TrimSpace m ≠ [])
    (hmsep : '=' ∉ m ∧ ':' ∉ m)
    (hmc : isCommentLine (TrimSpace m) = false)
    (hmh : isHeaderLine (TrimSpace m) = false) :
    (∃ st1 st2 v',
      readLine st raw = .ok st1 ∧
      GetRawString st1.c st.sect (TrimSpace (slice (TrimSpace raw) 0 (i + 1))) = .ok v' ∧
      readLine st1 m = .ok st2 ∧
      GetRawString st2.c st.sect (TrimSpace (slice (TrimSpace raw) 0 (i + 1))) =
        .ok (v' ++ "\n".toList ++ TrimSpace (cutComment (TrimSpace m)))) ∧
    (∃ c, Read NewConfigFile "[s]\nk = v\n more".toList = .ok c ∧
      GetRawString c "s".toList "k".toList = .ok "v\nmore".toList) := by
  refine ⟨?_, ⟨⟨[("default".toList, []), ("s".toList, [("k".toList, "v\nmore".toList)])]⟩,
    by decide, by decide⟩⟩
  have h1 := readLine_option st raw i hne hc hh hs hi
  have hk := option_name_ne_nil raw i hne
  have hsep : IndexAny (TrimSpace m) "=:".toList = none := by
    apply IndexAny_eq_none
    intro c hc hmem
    have hcm := mem_TrimSpace m c hc
    have : c = '=' ∨ c = ':' := by simpa using hmem
    rcases this with e | e
    · exact hmsep.1 (e ▸ hcm)
    · exact hmsep.2 (e ▸ hcm)
  have h2 := readLine_continuation
    ⟨AddOption st.c st.sect (TrimSpace (slice (TrimSpace raw) 0 (i + 1)))
        (TrimSpace (stripComments ((TrimSpace raw).drop (i + 1 + 1)))),
      st.sect, TrimSpace (slice (TrimSpace raw) 0 (i + 1))⟩ m hm0 hmc hmh hs hk hsep
  simp only [GetRawString_AddOption] at h2
  refine ⟨_, _, _, h1, GetRawString_AddOption _ _ _ _, h2, ?_⟩
  rw [stripComments_eq_cutComment (TrimSpace m)]
  exact GetRawString_AddOption _ _ _ _

/-- Witness of C4: the lines `k = v` and ` more` in section `s`. -/
theorem C4_continuation_line_witness :
    ∃ st1 st2 v',
      readLine ⟨NewConfigFile, "s".toList, []⟩ "k = v".toList = .ok st1 ∧
      GetRawString st1.c "s".toList (TrimSpace (slice (TrimSpace "k = v".toList) 0 (1 + 1))) =
        .ok v' ∧
      readLine st1 " more".toList = .ok st2 ∧
      GetRawString st2.c "s".toList (TrimSpace (slice (TrimSpace "k = v".toList) 0 (1 + 1))) =
        .ok (v' ++ "\n".toList ++ TrimSpace (cutComment (TrimSpace " more".toList))) :=
  (C4_continuation_line ⟨NewConfigFile, "s".toList, []⟩ "k = v".toList " more".toList 1
    (by decide) (by decide) (by decide) (by decide) (by decide) (by decide) (by decide)
    (by decide) (by decide)).1

/-- C5: a pass of `Read` on an option line stores under the option name the text after
the separator, cut at the first `;` or `#` that comes right after a space or a tab and
trimmed; a `;` or `#` not preceded by a space or a tab is kept. In every current
section the line `k = v ; trailing` stores `v` and the line `k = v;trailing` stores
`v;trailing`. -/
theorem C5_inline_comment (st : ReadState) (raw : Str) (i : Nat)
    (hs : st.sect ≠ [])
    (hne : TrimSpace raw ≠ [])
    (hc : isCommentLine (TrimSpace raw) = false)
    (hh : isHeaderLine (TrimSpace raw) = false)
    (hi : IndexAny (TrimSpace raw) "=:".toList = some (i + 1)) :
    (∃ st1, readLine st raw = .ok st1 ∧
      GetRawString st1.c st.sect (TrimSpace (slice (TrimSpace raw) 0 (i + 1))) =
        .ok (TrimSpace (cutComment ((TrimSpace raw).drop (i + 1 + 1))))) ∧
    (∃ st1, readLine st "k = v ; trailing".toList = .ok st1 ∧
      GetRawString st1.c st.sect "k".toList = .ok "v".toList) ∧
    (∃ st1, readLine st "k = v;trailing".toList = .ok st1 ∧
      GetRawString st1.c st.sect "k".toList = .ok "v;trailing".toList) := by
  refine ⟨?_, ?_, ?_⟩
  · refine ⟨_, readLine_option st raw i hne hc hh hs hi, ?_⟩
    rw [stripComments_eq_cutComment]
    exact GetRawString_AddOption _ _ _ _
  · refine ⟨_, readLine_option st "k = v ; trailing".toList 1 (by decide) (by decide)
      (by decide) hs (by decide), ?_⟩
    rw [show TrimSpace (slice (TrimSpace "k = v ; trailing".toList) 0 (1 + 1)) = "k".toList
        from by decide,
      show TrimSpace (stripComments ((TrimSpace "k = v ; trailing".toList).drop (1 + 1 + 1)))
        = "v".toList from by decide]
    exact GetRawString_AddOption _ _ _ _
  · refine ⟨_, readLine_option st "k = v;trailing".toList 1 (by decide) (by decide)
      (by decide) hs (by decide), ?_⟩
    rw [show TrimSpace (slice (TrimSpace "k = v;trailing".toList) 0 (1 + 1)) = "k".toList
        from by decide,
      show TrimSpace (stripComments ((TrimSpace "k = v;trailing".toList).drop (1 + 1 + 1)))
        = "v;trailing".toList from by decide]
    exact GetRawString_AddOption _ _ _ _

/-- Witness of C5: the line `key : a b #c ; d` in section `s` stores `a b` under `key`. -/
theorem C5_inline_comment_witness :
    ∃ st1, readLine ⟨NewConfigFile, "s".toList, []⟩ "key : a b #c ; d".toList = .ok st1 ∧
      GetRawString st1.c "s".toList
          (TrimSpace (slice (TrimSpace "key : a b #c ; d".toList) 0 (3 + 1))) =
        .ok (TrimSpace (cutComment ((TrimSpace "key : a b #c ; d".toList).drop (3 + 1 + 1)))) :=
  (C5_inline_comment ⟨NewConfigFile, "s".toList, []⟩ "key : a b #c ; d".toList 3
    (by decide) (by decide) (by decide) (by decide) (by decide)).1

/-- C6: for every text, given by its lines, and every line of it whose trimmed form has
length at least 3 and starts with `rem` in any letter case, `Read` returns the same
result, store or error, as on the text without that line; the line `remote = 1` leaves
every state unchanged, and after `[web]` it creates no option `remote`. -/
theorem C6_rem_line_ignored (c : ConfigFile) (before after : List Str) (line : Str)
    (hb : ∀ l ∈ before, '\n' ∉ l) (ha : ∀ l ∈ after, '\n' ∉ l) (hl : '\n' ∉ line)
    (hlen : (TrimSpace line).length ≥ 3)
    (hrem : ToLower (slice (TrimSpace line) 0 3) = "rem".toList) :
    Read c (joinLines (before ++ line :: after)) = Read c (joinLines (before ++ after)) ∧
    (∀ st, readLine st "remote = 1".toList = .ok st) ∧
    (∃ c1, Read NewConfigFile "[web]\nremote = 1".toList = .ok c1 ∧
      HasSection c1 "web".toList = true ∧
      HasOption c1 "web".toList "remote".toList = false) := by
  refine ⟨?_, ?_, ?_⟩
  · have h1 : ∀ l ∈ before ++ line :: after, '\n' ∉ l := by
      intro l hmem
      rcases List.mem_append.1 hmem with hmem | hmem
      · exact hb l hmem
      · rcases List.mem_cons.1 hmem with hmem | hmem
        · rw [hmem]; exact hl
        · exact ha l hmem
    have h2 : ∀ l ∈ before ++ after, '\n' ∉ l := by
      intro l hmem
      rcases List.mem_append.1 hmem with hmem | hmem
      · exact hb l hmem
      · exact ha l hmem
    have hline : ∀ st, readLine st line = .ok st := by
      intro st
      apply readLine_comment
      unfold isCommentLine
      simp [hlen, hrem]
    rw [Read_joinLines _ _ h1, Read_joinLines _ _ h2, readLoop_append, readLoop_append]
    cases readLoop ⟨c, "default".toList, []⟩ before with
    | ok st1 => simp only [readLoop, hline]
    | error e => rfl
  · intro st
    apply readLine_comment
    decide
  · exact ⟨⟨[("default".toList, []), ("web".toList, [])]⟩, by decide, by decide, by decide⟩

/-- Witness of C6: the line ` REM x` between `[a]` and `k = v`. -/
theorem C6_rem_line_ignored_witness :
    Read NewConfigFile (joinLines (["[a]".toList] ++ " REM x".toList :: ["k = v".toList])) =
      Read NewConfigFile (joinLines (["[a]".toList] ++ ["k = v".toList])) :=
  (C6_rem_line_ignored NewConfigFile ["[a]".toList] ["k = v".toList] " REM x".toList
    (by decide) (by decide) (by decide) (by decide) (by decide)).1

/-- C7: `GetRawString(s, o)` fails with `SectionNotFound` exactly when the key of `s`
(lower-cased, the empty name standing for `default`) is not a section of the store, fails
with `OptionNotFound` exactly when that section exists and the lower-cased `o` is not one
of its keys, and otherwise returns the stored value; `GetString` fails with the same
kinds in the first two cases. Lower-casing is that of `strings.ToLower`, on every letter:
in the store read from `[École]`, `Clé = x` the names `ÉCOLE` and `CLÉ` find `x`, and
section `ECOLE` is not found. -/
theorem C7_GetRawString_error_kinds (DepthValues : Nat) (c : ConfigFile) (s o : Str) :
    (((∃ e, GetRawString c s o = .error e ∧ e.Reason = .SectionNotFound) ↔
        mapGet c.data (sectionKey s) = none) ∧
    ((∃ e, GetRawString c s o = .error e ∧ e.Reason = .OptionNotFound) ↔
        ∃ m, mapGet c.data (sectionKey s) = some m ∧ mapGet m (ToLower o) = none) ∧
    (∀ m v, mapGet c.data (sectionKey s) = some m → mapGet m (ToLower o) = some v →
        GetRawString c s o = .ok v) ∧
    (mapGet c.data (sectionKey s) = none →
        ∃ e, GetString DepthValues c s o = .returns (.error e) ∧
          e.Reason = .SectionNotFound) ∧
    ((∃ m, mapGet c.data (sectionKey s) = some m ∧ mapGet m (ToLower o) = none) →
        ∃ e, GetString DepthValues c s o = .returns (.error e) ∧
          e.Reason = .OptionNotFound)) ∧
    Read NewConfigFile "[École]\nClé = x".toList = .ok ecoleStore ∧
    GetRawString ecoleStore "ÉCOLE".toList "CLÉ".toList = .ok "x".toList ∧
    GetRawString ecoleStore "ECOLE".toList "CLÉ".toList =
      .error ⟨.SectionNotFound, [], [], "ecole".toList, "clé".toList⟩ := by
  refine ⟨?_, by decide, by decide, by decide⟩
  cases hm : mapGet c.data (sectionKey s) with
  | none =>
    have h := GetRawString_no_section c s o hm
    refine ⟨?_, ?_, ?_, ?_, ?_⟩
    · simp only [iff_true]
      exact ⟨_, h, rfl⟩
    · rw [h]
      simp
    · intro m v hm2
      cases hm2
    · intro _
      unfold GetString
      rw [h]
      exact ⟨_, rfl, rfl⟩
    · rintro ⟨m, hm2, _⟩
      cases hm2
  | some m =>
    cases hv : mapGet m (ToLower o) with
    | none =>
      have h := GetRawString_no_option c s o m hm hv
      refine ⟨?_, ?_, ?_, ?_, ?_⟩
      · rw [h]
        simp
      · constructor
        · intro _
          exact ⟨m, rfl, hv⟩
        · intro _
          exact ⟨_, h, rfl⟩
      · intro m2 v hm2 hv2
        injection hm2 with hm2
        subst hm2
        rw [hv] at hv2
        cases hv2
      · intro hm2
        cases hm2
      · intro _
        unfold GetString
        rw [h]
        exact ⟨_, rfl, rfl⟩
    | some v =>
      have h := GetRawString_found c s o m v hm hv
      refine ⟨?_, ?_, ?_, ?_, ?_⟩
      · rw [h]
        simp
      · rw [h]
        constructor
        · rintro ⟨e, he, _⟩
          cases he
        · rintro ⟨m2, hm2, hv2⟩
          injection hm2 with hm2
          subst hm2
          rw [hv] at hv2
          cases hv2
      · intro m2 v2 hm2 hv2
        injection hm2 with hm2
        subst hm2
        rw [hv] at hv2
        injection hv2 with hv2
        subst hv2
        exact h
      · intro hm2
        cases hm2
      · rintro ⟨m2, hm2, hv2⟩
        injection hm2 with hm2
        subst hm2
        rw [hv] at hv2
        cases hv2

/-- C8: after an option is inserted under section `s` and option `o` with value `v`, by
`AddOption` or by a pass of `Read` on an option line in current section `s` whose name
part is `o` and whose stored value is `v`, for every `s'` and `o'` equal to `s` and `o`
up to letter case, that is with the same lower-casing by `strings.ToLower`,
`HasSection(s')` and `HasOption(s', o')` are true and `GetRawString(s', o')` returns `v`.
That lower-casing is on every letter: `ÉCOLE À` gives `école à`. -/
theorem C8_inserted_option_visible (c : ConfigFile) (s o v s' o' : Str)
    (hs : ToLower s' = ToLower s) (ho : ToLower o' = ToLower o) :
    (HasSection (AddOption c s o v) s' = true ∧
      HasOption (AddOption c s o v) s' o' = true ∧
      GetRawString (AddOption c s o v) s' o' = .ok v) ∧
    (∀ (option raw : Str) (i : Nat),
      s ≠ [] →
      TrimSpace raw ≠ [] →
      isCommentLine (TrimSpace raw) = false →
      isHeaderLine (TrimSpace raw) = false →
      IndexAny (TrimSpace raw) "=:".toList = some (i + 1) →
      TrimSpace (slice (TrimSpace raw) 0 (i + 1)) = o →
      TrimSpace (stripComments ((TrimSpace raw).drop (i + 1 + 1))) = v →
      ∃ st, readLine ⟨c, s, option⟩ raw = .ok st ∧
        HasSection st.c s' = true ∧ HasOption st.c s' o' = true ∧
        GetRawString st.c s' o' = .ok v) ∧
    ToLower "ÉCOLE À".toList = "école à".toList := by
  refine ⟨inserted_visible c s o v s' o' hs ho, ?_, by decide⟩
  intro option raw i hs0 hne hc hh hi hk hv
  refine ⟨_, readLine_option ⟨c, s, option⟩ raw i hne hc hh hs0 hi, ?_⟩
  simp only [hk, hv]
  exact inserted_visible c s o v s' o' hs ho

/-- Witness of C8: option `Clé` inserted under `École` with value `x`, queried as
`ÉCOLE` and `CLÉ`, and the line `Clé = x` read in section `École`. -/
theorem C8_inserted_option_visible_witness :
    ToLower "ÉCOLE".toList = ToLower "École".toList ∧
    ToLower "CLÉ".toList = ToLower "Clé".toList ∧
    GetRawString (AddOption NewConfigFile "École".toList "Clé".toList "x".toList)
      "ÉCOLE".toList "CLÉ".toList = .ok "x".toList ∧
    (∃ st, readLine ⟨NewConfigFile, "École".toList, []⟩ "Clé = x".toList = .ok st ∧
      HasSection st.c "ÉCOLE".toList = true ∧
      HasOption st.c "ÉCOLE".toList "CLÉ".toList = true ∧
      GetRawString st.c "ÉCOLE".toList "CLÉ".toList = .ok "x".toList) :=
  ⟨by decide, by decide,
    (C8_inserted_option_visible NewConfigFile "École".toList "Clé".toList "x".toList
      "ÉCOLE".toList "CLÉ".toList (by decide) (by decide)).1.2.2,
    (C8_inserted_option_visible NewConfigFile "École".toList "Clé".toList "x".toList
      "ÉCOLE".toList "CLÉ".toList (by decide) (by decide)).2.1 [] "Clé = x".toList 3
      (by decide) (by decide) (by decide) (by decide) (by decide) (by decide) (by decide)⟩

/-- C9: `HasOption(s, o)` is true if and only if section `s` exists (case-insensitively,
the empty name meaning `default`) and the lower-cased `o` is defined in `s` or in the
default section; it is false whenever section `s` does not exist, also when the default
section defines `o`. Letter case is that of `strings.ToLower`, on every letter: in the
store read from `[École]`, `Clé = x`, `HasOption("ÉCOLE", "CLÉ")` is true and
`HasOption("ECOLE", "CLÉ")` is false. -/
theorem C9_HasOption_iff (c : ConfigFile) (s o : Str) :
    ((HasOption c s o = true ↔
      (mapGet c.data (sectionKey s)).isSome = true ∧
        ((lookup2 c (sectionKey s) (ToLower o)).isSome = true ∨
          (lookup2 c DefaultSection (ToLower o)).isSome = true)) ∧
    (mapGet c.data (sectionKey s) = none → HasOption c s o = false)) ∧
    HasOption ecoleStore "ÉCOLE".toList "CLÉ".toList = true ∧
    HasOption ecoleStore "ECOLE".toList "CLÉ".toList = false := by
  refine ⟨?_, by decide, by decide⟩
  rw [HasOption_eq]
  cases hm : mapGet c.data (sectionKey s) with
  | none => simp
  | some m =>
    simp only [Option.isSome_some, true_and, Bool.or_eq_true]
    constructor
    · exact or_comm
    · intro h; cases h

/-- C10: on the store read from `a = 1`, `[web]`, `b = 2`, where the default section
defines `a` and section `web` defines `b`, `GetOptions("web")` returns `b` alone: the
option `a` of the default section is not in the list, although `HasOption("web", "a")`
holds. -/
theorem C10_GetOptions_omits_default :
    Read NewConfigFile "a = 1\n[web]\nb = 2".toList =
      .ok ⟨[("default".toList, [("a".toList, "1".toList)]),
            ("web".toList, [("b".toList, "2".toList)])]⟩ ∧
    ∀ c, Read NewConfigFile "a = 1\n[web]\nb = 2".toList = .ok c →
      GetOptions c "web".toList = .ok ["b".toList] ∧
      GetOptions c "default".toList = .ok ["a".toList] ∧
      HasOption c "web".toList "a".toList = true := by
  have h : Read NewConfigFile "a = 1\n[web]\nb = 2".toList =
      .ok ⟨[("default".toList, [("a".toList, "1".toList)]),
            ("web".toList, [("b".toList, "2".toList)])]⟩ := by decide
  refine ⟨h, ?_⟩
  intro c hc
  rw [h] at hc
  injection hc with hc
  subst hc
  decide

/-- C11: when `GetString(s, o)` fails with error `e`, `GetBool` and `GetList` return `e`
itself, but `GetInt` and `GetFloat64` return a record of kind `TypeError` that keeps
only the `Value` field of `e`. On a fresh store `GetString("web", "port")` fails with
`SectionNotFound` for section `web` and option `port`, and `GetInt("web", "port")`
returns 0 with the record `{TypeError, "", "", "", ""}`. -/
theorem C11_GetInt_GetFloat64_replace_error :
    (∀ (BoolStrings : List (Str × Bool)) (DepthValues : Nat) (c : ConfigFile)
        (s o delim : Str) (e : GetError),
      GetString DepthValues c s o = .returns (.error e) →
        GetBool BoolStrings DepthValues c s o = .returns (false, some e) ∧
        GetList DepthValues c s o delim = .returns ([], some e) ∧
        GetInt DepthValues c s o = .returns (0, some ⟨.TypeError, [], e.Value, [], []⟩)) ∧
    (∀ (F : Type) (zero : F) (ParseFloat : Str → F × Bool) (DepthValues : Nat)
        (c : ConfigFile) (s o : Str) (e : GetError),
      GetString DepthValues c s o = .returns (.error e) →
        GetFloat64 zero ParseFloat DepthValues c s o =
          .returns (zero, some ⟨.TypeError, [], e.Value, [], []⟩)) ∧
    GetString 200 NewConfigFile "web".toList "port".toList =
      .returns (.error ⟨.SectionNotFound, [], [], "web".toList, "port".toList⟩) ∧
    GetInt 200 NewConfigFile "web".toList "port".toList =
      .returns (0, some ⟨.TypeError, [], [], [], []⟩) := by
  refine ⟨?_, ?_, by decide, by decide⟩
  · intro B D c s o delim e h
    unfold GetBool GetList GetInt
    rw [h]
    exact ⟨rfl, rfl, rfl⟩
  · intro F zero P D c s o e h
    unfold GetFloat64
    rw [h]
    rfl

/-- C12: when `GetString(s, o)` succeeds and `ParseFloat` accepts the resolved string,
`GetFloat64` does not return: its last statement reads `err.Value` with `err` nil. So it
is on the store read from `x = 1.5` for option `x` of the default section, whatever
float `ParseFloat` gives for `1.5`. When `GetString` fails or `ParseFloat` refuses the
string, `GetFloat64` returns a record of kind `TypeError`. -/
theorem C12_GetFloat64_nil_dereference :
    (∀ (F : Type) (zero : F) (ParseFloat : Str → F × Bool) (DepthValues : Nat)
        (c : ConfigFile) (s o sv : Str) (x : F),
      GetString DepthValues c s o = .returns (.ok sv) → ParseFloat sv = (x, true) →
        GetFloat64 zero ParseFloat DepthValues c s o = .panics .nilDereference) ∧
    (∀ (F : Type) (zero : F) (ParseFloat : Str → F × Bool) (DepthValues : Nat)
        (c : ConfigFile) (s o sv : Str) (x : F),
      GetString DepthValues c s o = .returns (.ok sv) → ParseFloat sv = (x, false) →
        GetFloat64 zero ParseFloat DepthValues c s o =
          .returns (x, some ⟨.TypeError, [], sv, [], []⟩)) ∧
    Read NewConfigFile "x = 1.5".toList = .ok floatStore ∧
    GetString 200 floatStore [] "x".toList = .returns (.ok "1.5".toList) ∧
    (∀ (F : Type) (zero : F) (ParseFloat : Str → F × Bool) (x : F),
      ParseFloat "1.5".toList = (x, true) →
        GetFloat64 zero ParseFloat 200 floatStore [] "x".toList = .panics .nilDereference) := by
  have key : ∀ (F : Type) (zero : F) (ParseFloat : Str → F × Bool) (DepthValues : Nat)
      (c : ConfigFile) (s o sv : Str) (x : F),
      GetString DepthValues c s o = .returns (.ok sv) → ParseFloat sv = (x, true) →
        GetFloat64 zero ParseFloat DepthValues c s o = .panics .nilDereference := by
    intro F zero P D c s o sv x h hp
    unfold GetFloat64
    rw [h]
    simp only [Run.bind, hp]
  refine ⟨key, ?_, by decide, by decide, ?_⟩
  · intro F zero P D c s o sv x h hp
    unfold GetFloat64
    rw [h]
    simp only [Run.bind, hp]
  · intro F zero P x hp
    exact key F zero P 200 floatStore [] "x".toList "1.5".toList x (by decide) hp

/-- C13: when `GetString(s, o)` succeeds with `sv` and `Atoi` reads `sv` as the integer
`n`, `GetInt(s, o)` returns `n` together with the record `{TypeError, "", "", "", ""}`,
not a nil error; when `Atoi` refuses `sv`, `GetInt` returns the record
`{CouldNotParse, "int", sv, s, o}`. `Atoi` reads the decimal literal of every integer of
the 64-bit range as that integer. -/
theorem C13_GetInt_results (DepthValues : Nat) (c : ConfigFile) (s o sv : Str)
    (h : GetString DepthValues c s o = .returns (.ok sv)) :
    (∀ n, Atoi sv = (n, true) →
      GetInt DepthValues c s o = .returns (n, some ⟨.TypeError, [], [], [], []⟩)) ∧
    (∀ n, Atoi sv = (n, false) →
      GetInt DepthValues c s o = .returns (n, some ⟨.CouldNotParse, "int".toList, sv, s, o⟩)) ∧
    (∀ n : Nat, 0 < n → n < 2 ^ 63 → sv = decimal n →
      GetInt DepthValues c s o = .returns ((n : Int), some ⟨.TypeError, [], [], [], []⟩)) ∧
    (∀ n : Nat, 0 < n → n ≤ 2 ^ 63 → sv = '-' :: decimal n →
      GetInt DepthValues c s o = .returns (-(n : Int), some ⟨.TypeError, [], [], [], []⟩)) ∧
    (sv = "0".toList → GetInt DepthValues c s o = .returns (0, some ⟨.TypeError, [], [], [], []⟩)) := by
  have ok : ∀ n, Atoi sv = (n, true) →
      GetInt DepthValues c s o = .returns (n, some ⟨.TypeError, [], [], [], []⟩) := by
    intro n hn
    unfold GetInt
    rw [h]
    simp only [Run.bind, hn]
  refine ⟨ok, ?_, ?_, ?_, ?_⟩
  · intro n hn
    unfold GetInt
    rw [h]
    simp only [Run.bind, hn]
  · intro n h0 h1 hsv
    exact ok _ (by rw [hsv]; exact Atoi_decimal n h0 h1)
  · intro n h0 h1 hsv
    exact ok _ (by rw [hsv]; exact Atoi_neg_decimal n h0 h1)
  · intro hsv
    exact ok _ (by rw [hsv]; decide)

/-- Witness of C13: on the store read from `x = 1.5`, `n = 42`, `GetInt` on `n` returns
42 with the `TypeError` record, and on `x` the `CouldNotParse` record. -/
theorem C13_GetInt_results_witness :
    GetInt 200 ⟨[("default".toList, [("x".toList, "1.5".toList), ("n".toList, "42".toList)])]⟩
        [] "n".toList = .returns (42, some ⟨.TypeError, [], [], [], []⟩) ∧
    GetInt 200 ⟨[("default".toList, [("x".toList, "1.5".toList), ("n".toList, "42".toList)])]⟩
        [] "x".toList =
      .returns (0, some ⟨.CouldNotParse, "int".toList, "1.5".toList, [], "x".toList⟩) :=
  ⟨(C13_GetInt_results 200
      ⟨[("default".toList, [("x".toList, "1.5".toList), ("n".toList, "42".toList)])]⟩
      [] "n".toList "42".toList (by decide)).1 42 (by decide),
    (C13_GetInt_results 200
      ⟨[("default".toList, [("x".toList, "1.5".toList), ("n".toList, "42".toList)])]⟩
      [] "x".toList "1.5".toList (by decide)).2.1 0 (by decide)⟩

/-- C14, as amended: `ReadConfigBytes(b)` succeeds exactly when `Read` on a fresh
configuration succeeds, with the same store; when `Read` fails, `ReadConfigBytes` fails
with kind `TypeError` and the line text of the error of `Read`, whatever its kind. -/
theorem C14_ReadConfigBytes_contract (b : Str) :
    (∀ c, ReadConfigBytes b = .ok c ↔ Read NewConfigFile b = .ok c) ∧
    (∀ e, Read NewConfigFile b = .error e → ReadConfigBytes b = .error ⟨.TypeError, e.Line⟩) ∧
    (∀ e, ReadConfigBytes b = .error e →
      e.Reason = .TypeError ∧ ∃ e0, Read NewConfigFile b = .error e0 ∧ e0.Line = e.Line) := by
  unfold ReadConfigBytes
  cases h : Read NewConfigFile b with
  | ok c0 =>
    refine ⟨fun c => Iff.rfl, ?_, ?_⟩
    · intro e he
      cases he
    · intro e he
      cases he
  | error e0 =>
    refine ⟨?_, ?_, ?_⟩
    · intro c
      constructor <;> intro hc <;> cases hc
    · intro e he
      injection he with he
      rw [he]
    · intro e he
      injection he with he
      rw [← he]
      exact ⟨rfl, e0, rfl, rfl⟩

/-- C14 fails as stated: on the text `x`, a line that is neither an assignment nor a
continuation, `Read` fails with `CouldNotParse` and `ReadConfigBytes` with `TypeError`;
on `[]`, `k = v`, an option line under the empty section name, `Read` fails with
`BlankSection` and `ReadConfigBytes` with `TypeError`. -/
theorem C14_counterexample_kind :
    Read NewConfigFile "x".toList = .error ⟨.CouldNotParse, "x".toList⟩ ∧
    ReadConfigBytes "x".toList = .error ⟨.TypeError, "x".toList⟩ ∧
    Read NewConfigFile "[]\nk = v".toList = .error ⟨.BlankSection, "k = v".toList⟩ ∧
    ReadConfigBytes "[]\nk = v".toList = .error ⟨.TypeError, "k = v".toList⟩ := by
  decide

/-- C15: for every text `t`, `Read` gives the same result, store or error, on `t` and on
`t` followed by a line terminator: the last line, terminated or not, goes through the
same line switch. -/
theorem C15_final_line_terminator (c : ConfigFile) (t : Str) :
    Read c (t ++ ['\n']) = Read c t := by
  obtain ⟨hj, hn⟩ := joinLines_splitLines t
  have hn2 : ∀ l ∈ splitLines t ++ [[]], '\n' ∉ l := by
    intro l hl
    rcases List.mem_append.1 hl with hl | hl
    · exact hn l hl
    · have : l = [] := by simpa using hl
      rw [this]
      simp
  have e : t ++ ['\n'] = joinLines (splitLines t ++ [[]]) := by
    rw [joinLines_append_empty _ (splitLines_ne_nil t), hj]
  rw [e, Read_joinLines _ _ hn2, readLoop_append]
  conv_rhs => rw [← hj, Read_joinLines _ _ hn]
  cases readLoop ⟨c, "default".toList, []⟩ (splitLines t) with
  | ok st => simp only [readLoop, readLine_empty]
  | error e => rfl

/-- C16, a defect of `GetString`: the loop takes bytes 2 and 3 of the text that
`FindString` returns as the bounds of the name in the value. For the match `%(name)s`
these are `n` = 110 and `a` = 97, which delimit no slice: whenever the leftmost
placeholder of the raw value of option `o` is `%(name)s`, `GetString(s, o)` panics on
`value[110:97]` before it looks `name` up, for every `DepthValues` above 0. On the store
read from `name = d`, `[s]`, `name = w`, `o = a%(name)sb`, `[t]`, `o = a%(name)sb` it
substitutes neither `w` for section `s` nor `d` for section `t`. -/
theorem C16_name_reference_panics :
    (∀ (DepthValues : Nat) (c : ConfigFile) (s o raw : Str),
      GetRawString c s o = .ok raw → FindString raw = "%(name)s".toList → 0 < DepthValues →
        GetString DepthValues c s o = .panics .sliceBounds) ∧
    Read NewConfigFile
        "name = d\n[s]\nname = w\no = a%(name)sb\n[t]\no = a%(name)sb".toList =
      .ok precedenceStore ∧
    FindString "a%(name)sb".toList = "%(name)s".toList ∧
    byteAt "%(name)s".toList 2 = some 110 ∧
    byteAt "%(name)s".toList 3 = some 97 ∧
    GetString 200 precedenceStore "s".toList "o".toList = .panics .sliceBounds ∧
    GetString 200 precedenceStore "t".toList "o".toList = .panics .sliceBounds := by
  refine ⟨?_, by decide, by decide, by decide, by decide, by decide, by decide⟩
  intro D c s o raw hraw hvr hD
  obtain ⟨n, rfl⟩ : ∃ n, D = n + 1 := ⟨D - 1, by omega⟩
  exact GetString_slice_panics c s o raw _ n 110 97 hraw hvr (by decide) (by decide)
    (by decide) (Or.inl (by decide))

/-- C17, a defect of `GetString`: the loop takes bytes 2 and 3 of the text that
`FindString` returns as the bounds of the name in the value. For the match `%(ref)s`
these are `r` = 114 and `e` = 101, which delimit no slice: whenever the leftmost
placeholder of the raw value of option `o` is `%(ref)s`, `GetString(s, o)` panics on
`value[114:101]` before it looks `ref` up, for every `DepthValues` above 0. On the store
read from `[s]`, `o = %(ref)s`, where `ref` is defined in neither section, the call
panics, and does not fail with `OptionNotFound`. -/
theorem C17_ref_reference_panics :
    (∀ (DepthValues : Nat) (c : ConfigFile) (s o raw : Str),
      GetRawString c s o = .ok raw → FindString raw = "%(ref)s".toList → 0 < DepthValues →
        GetString DepthValues c s o = .panics .sliceBounds) ∧
    Read NewConfigFile "[s]\no = %(ref)s".toList = .ok refStore ∧
    lookup2 refStore DefaultSection "ref".toList = none ∧
    lookup2 refStore "s".toList "ref".toList = none ∧
    FindString "%(ref)s".toList = "%(ref)s".toList ∧
    byteAt "%(ref)s".toList 2 = some 114 ∧
    byteAt "%(ref)s".toList 3 = some 101 ∧
    GetString 200 refStore "s".toList "o".toList = .panics .sliceBounds := by
  refine ⟨?_, by decide, by decide, by decide, by decide, by decide, by decide, by decide⟩
  intro D c s o raw hraw hvr hD
  obtain ⟨n, rfl⟩ : ∃ n, D = n + 1 := ⟨D - 1, by omega⟩
  exact GetString_slice_panics c s o raw _ n 114 101 hraw hvr (by decide) (by decide)
    (by decide) (Or.inl (by decide))

/-- C18, as amended: a line whose trimmed form has its first `=` or `:` at position 0,
reached with a non-empty current section, makes `Read` fail with `CouldNotParse`
carrying the trimmed line when no current option is active; when a current option is
active the line is taken as a continuation: the pass succeeds and appends a line
terminator and the trimmed, comment-stripped line to the raw value of that option. -/
theorem C18_line_starting_with_separator (st : ReadState) (raw : Str)
    (hs : st.sect ≠ [])
    (hi : IndexAny (TrimSpace raw) "=:".toList = some 0) :
    (st.option = [] → readLine st raw = .error ⟨.CouldNotParse, TrimSpace raw⟩) ∧
    (st.option ≠ [] →
      ∃ st1 prev, readLine st raw = .ok st1 ∧ st1.sect = st.sect ∧ st1.option = st.option ∧
        prev = (match GetRawString st.c st.sect st.option with
          | .ok v => v
          | .error _ => []) ∧
        GetRawString st1.c st.sect st.option =
          .ok (prev ++ "\n".toList ++ TrimSpace (stripComments (TrimSpace raw)))) := by
  have h := readLine_separator_first st raw hs hi
  constructor
  · intro ho
    rw [h]
    simp [ho]
  · intro ho
    rw [h]
    simp only [hs, ho, ne_eq, not_false_eq_true, and_self, if_true]
    exact ⟨_, _, rfl, rfl, rfl, rfl, GetRawString_AddOption _ _ _ _⟩

/-- Witness of C18: the line `=w` in section `s`, with no current option. -/
theorem C18_line_starting_with_separator_witness :
    readLine ⟨NewConfigFile, "s".toList, []⟩ "=w".toList =
      .error ⟨.CouldNotParse, TrimSpace "=w".toList⟩ :=
  (C18_line_starting_with_separator ⟨NewConfigFile, "s".toList, []⟩ "=w".toList
    (by decide) (by decide)).1 rfl

/-- C18 fails as stated: the text `[s]`, `k = v`, `=w` is read without error, the line
`=w`, whose separator is at position 0, being appended to the value of `k`; so is the
line `:w`. -/
theorem C18_counterexample_continuation :
    IndexAny (TrimSpace "=w".toList) "=:".toList = some 0 ∧
    Read NewConfigFile "[s]\nk = v\n=w".toList =
      .ok ⟨[("default".toList, []), ("s".toList, [("k".toList, "v\n=w".toList)])]⟩ ∧
    Read NewConfigFile "[s]\nk = v\n:w".toList =
      .ok ⟨[("default".toList, []), ("s".toList, [("k".toList, "v\n:w".toList)])]⟩ := by
  decide

/-- C19: for every string `l`, `stripComments(l)` is the prefix of `l` that ends just
before the earliest occurrence in `l` of one of the four markers ` ;`, tab `;`, ` #`,
tab `#`, and `l` itself when none occurs; its result holds none of the four markers, and
`stripComments` applied twice is `stripComments` applied once. -/
theorem C19_stripComments_earliest_marker (l : Str) :
    (stripComments l =
      match earliestMarker l with
      | some i => l.take i
      | none => l) ∧
    (Index (stripComments l) " ;".toList = none ∧
      Index (stripComments l) "\t;".toList = none ∧
      Index (stripComments l) " #".toList = none ∧
      Index (stripComments l) "\t#".toList = none) ∧
    stripComments (stripComments l) = stripComments l := by
  obtain ⟨f1, f2, f3, f4⟩ := stripComments_free l
  refine ⟨?_, ⟨?_, ?_, ?_, ?_⟩, stripComments_of_free _ f1 f2 f3 f4⟩
  · rw [stripComments_eq_cutComment, cutComment_eq_earliest]
  · exact Index_none_of_cutAt ' ' ';' _ f1
  · exact Index_none_of_cutAt '\t' ';' _ f2
  · exact Index_none_of_cutAt ' ' '#' _ f3
  · exact Index_none_of_cutAt '\t' '#' _ f4

/-- C20, a defect of `GetString`: the loop takes bytes 2 and 3 of the text that
`FindString` returns as the bounds of the name in the value, and the call panics whenever
these two bytes delimit no slice of the value, for every `DepthValues` above 0. So it is
for every link of a chain whose value is one placeholder `%(b)s` with a name of the
pattern of 40 bytes at most: the bytes are the first character of `b` and its second
character, or `)`. On the store read from `a = %(b)s`, `b = %(c)s`, `c = x` the slice for
option `a` is `value[98:41]`: with `DepthValues` 3, for which two substitutions would
give `x`, and with `DepthValues` 2, for which the bound would be reached, the call
panics; it returns neither `x` nor an error of kind `MaxDepthReached`. -/
theorem C20_chain_panics :
    (∀ (DepthValues : Nat) (c : ConfigFile) (s o raw vr : Str) (lo hi : Nat),
      GetRawString c s o = .ok raw → FindString raw = vr → vr ≠ [] →
      byteAt vr 2 = some lo → byteAt vr 3 = some hi → hi < lo ∨ len raw < hi →
      0 < DepthValues →
        GetString DepthValues c s o = .panics .sliceBounds) ∧
    (∀ (DepthValues : Nat) (c : ConfigFile) (s o b : Str),
      GetRawString c s o = .ok ("%(".toList ++ b ++ ")s".toList) →
      b ≠ [] → (∀ x ∈ b, isIdent x = true) → b.length ≤ 40 → 0 < DepthValues →
        GetString DepthValues c s o = .panics .sliceBounds) ∧
    Read NewConfigFile "a = %(b)s\nb = %(c)s\nc = x".toList = .ok chainStore ∧
    FindString "%(b)s".toList = "%(b)s".toList ∧
    byteAt "%(b)s".toList 2 = some 98 ∧
    byteAt "%(b)s".toList 3 = some 41 ∧
    GetString 3 chainStore [] "a".toList = .panics .sliceBounds ∧
    GetString 2 chainStore [] "a".toList = .panics .sliceBounds ∧
    GetString 3 chainStore [] "b".toList = .panics .sliceBounds ∧
    GetString 3 chainStore [] "c".toList = .returns (.ok "x".toList) := by
  refine ⟨?_, ?_, by decide, by decide, by decide, by decide, by decide, by decide,
    by decide, by decide⟩
  · intro D c s o raw vr lo hi hraw hvr hne hlo hhi h hD
    obtain ⟨n, rfl⟩ : ∃ n, D = n + 1 := ⟨D - 1, by omega⟩
    exact GetString_slice_panics c s o raw vr n lo hi hraw hvr hne hlo hhi h
  · intro D c s o b hraw hne hb hlen hD
    obtain ⟨n, rfl⟩ : ∃ n, D = n + 1 := ⟨D - 1, by omega⟩
    unfold GetString
    rw [hraw]
    exact GetStringLoop_reference_panics c _ o b n hne hb hlen

end Conf
